import Mathlib

/-
Verification of the ukis-h3cellstore specification against a shallow
embedding of the repository's code.

Strings are modelled as `List Char`.  Each definition mirrors one Rust
item; the file comments name the source location.
-/

namespace H3CS

/-- Character strings, modelled as lists of characters. -/
abbrev Str := List Char

/-- The `[A-Za-z]` character class of the table-name regex. -/
def isAsciiAlpha (c : Char) : Bool :=
  ('a' ≤ c && c ≤ 'z') || ('A' ≤ c && c ≤ 'Z')

/-- The `[0-9]` character class. -/
def isAsciiDigit (c : Char) : Bool :=
  '0' ≤ c && c ≤ '9'

/-- The `[a-zA-Z_0-9]` character class. -/
def isWordChar (c : Char) : Bool :=
  isAsciiAlpha c || isAsciiDigit c || c = '_'

/-- `TableSpec` of `h3cellstore/src/clickhouse/tableset.rs`. -/
structure TableSpec where
  h3_resolution : Nat
  is_compacted : Bool
  temporary_key : Option Str
  has_base_suffix : Bool
deriving DecidableEq, Repr

/-- `Table` of `h3cellstore/src/clickhouse/tableset.rs`. -/
structure Table where
  basename : Str
  spec : TableSpec
deriving DecidableEq, Repr

/-- Zero-padded two-digit rendering, Rust `format!("{:02}", n)`. -/
def resPad2 (n : Nat) : Str :=
  if n < 10 then '0' :: Nat.toDigits 10 n else Nat.toDigits 10 n

/-- `Table::to_table_name`: emit `{basename}_{RR:02}{suffix}{tmp}`. -/
def Table.to_table_name (t : Table) : Str :=
  t.basename ++ ('_' :: resPad2 t.spec.h3_resolution)
    ++ (if t.spec.has_base_suffix then
          if t.spec.is_compacted then "_compacted".data else "_base".data
        else [])
    ++ (match t.spec.temporary_key with
        | some k => "_tmp".data ++ k
        | none => [])

/-- The first capture group `[a-zA-Z].[a-zA-Z_0-9]+` of `RE_TABLE`:
first char ASCII alpha, second char arbitrary (the regex `.`, anything
but a newline), then one or more word characters. -/
def g1Matches (l : Str) : Bool :=
  match l with
  | c0 :: c1 :: rest =>
    isAsciiAlpha c0 && !(c1 = '\n') && !rest.isEmpty && rest.all isWordChar
  | _ => false

/-- Match the trailing optional group `(_tmp([a-zA-Z0-9_]+))?$` of
`RE_TABLE`.  Returns the captured key when the group matched, `none`
inside `some` when it is absent and the input is exhausted, and `none`
when the remainder cannot match. -/
def matchTmpGroup (l : Str) : Option (Option Str) :=
  if l.isEmpty then some none
  else if "_tmp".data.isPrefixOf l then
    if !(l.drop 4).isEmpty && (l.drop 4).all isWordChar then some (some (l.drop 4))
    else none
  else none

/-- Match `(_(base|compacted))?(_tmp([a-zA-Z0-9_]+))?$`: the optional
suffix group (alternatives tried in regex order, with fallback to the
absent group on failure) followed by the optional temporary-key group.
Returns (captured suffix word, captured temporary key). -/
def matchSuffixGroups (l : Str) : Option (Option Str × Option Str) :=
  if "_base".data.isPrefixOf l then
    match matchTmpGroup (l.drop 5) with
    | some k => some (some "base".data, k)
    | none => (matchTmpGroup l).map (fun k => (none, k))
  else if "_compacted".data.isPrefixOf l then
    match matchTmpGroup (l.drop 10) with
    | some k => some (some "compacted".data, k)
    | none => (matchTmpGroup l).map (fun k => (none, k))
  else (matchTmpGroup l).map (fun k => (none, k))

/-- Does splitting the name after the first `i` characters yield a
match of `RE_TABLE` (basename = first `i` chars, then `_`, two digits
and the optional suffix groups)? -/
def validSplitAt (cs : Str) (i : Nat) : Bool :=
  g1Matches (cs.take i) &&
  (match cs.drop i with
   | '_' :: d1 :: d2 :: rest =>
     isAsciiDigit d1 && isAsciiDigit d2 && (matchSuffixGroups rest).isSome
   | _ => false)

/-- Numeric value of a decimal digit character. -/
def digitVal (c : Char) : Nat := c.toNat - '0'.toNat

/-- `Table::parse`: apply `RE_TABLE` and build the `Table` from the
captures.  The greedy first group is modelled by trying the longest
basename split first. -/
def Table.parse (cs : Str) : Option Table :=
  match (List.range (cs.length + 1)).reverse.find? (validSplitAt cs) with
  | none => none
  | some i =>
    match cs.drop i with
    | _ :: d1 :: d2 :: rest =>
      match matchSuffixGroups rest with
      | some (sfx, tmp) =>
        some { basename := cs.take i,
               spec := { h3_resolution := 10 * digitVal d1 + digitVal d2,
                         is_compacted := sfx = some "compacted".data,
                         temporary_key := tmp,
                         has_base_suffix := sfx.isSome } }
      | none => none
    | _ => none

/-! ### Codec lemmas -/

/-- `find?` over a reversed `range` returns the largest index satisfying
the predicate. -/
theorem find_rev_range_eq (p : Nat → Bool) (n m : Nat) (hm : m < n)
    (hp : p m = true) (hmax : ∀ j, m < j → j < n → p j = false) :
    (List.range n).reverse.find? p = some m := by
  induction n with
  | zero => omega
  | succ n ih =>
    rw [List.range_succ, List.reverse_append]
    simp only [List.reverse_singleton, List.singleton_append]
    rcases Nat.lt_or_ge m n with hlt | hge
    · rw [List.find?_cons_of_neg _ (by simp [hmax n hlt (Nat.lt_succ_self n)])]
      exact ih hlt (fun j h1 h2 => hmax j h1 (Nat.lt_succ_of_lt h2))
    · have : m = n := by omega
      subst this
      exact List.find?_cons_of_pos _ hp

/-- No split point inside `l` looks like `_` followed by two decimal
digits.  This is the key fact making the greedy basename capture of
`RE_TABLE` unambiguous on emitted names. -/
def NoDigitSplit (l : Str) : Prop :=
  ∀ j e1 e2 tl, l.drop j = '_' :: e1 :: e2 :: tl →
    isAsciiDigit e1 = false ∨ isAsciiDigit e2 = false

theorem noDigitSplit_nil : NoDigitSplit [] := by
  intro j e1 e2 tl h
  simp at h

theorem noDigitSplit_cons (c : Char) (l : Str) (hc : ¬(c = '_'))
    (hl : NoDigitSplit l) : NoDigitSplit (c :: l) := by
  intro j e1 e2 tl h
  cases j with
  | zero => exact absurd (List.head_eq_of_cons_eq h) hc
  | succ j => exact hl j e1 e2 tl (by simpa using h)

theorem noDigitSplit_underscore (a b : Char) (l : Str)
    (ha : isAsciiDigit a = false) (hl : NoDigitSplit (a :: b :: l)) :
    NoDigitSplit ('_' :: a :: b :: l) := by
  intro j e1 e2 tl h
  cases j with
  | zero =>
    obtain ⟨-, h2⟩ := List.cons_eq_cons.mp h
    obtain ⟨he1, -⟩ := List.cons_eq_cons.mp h2
    exact Or.inl (he1 ▸ ha)
  | succ j => exact hl j e1 e2 tl (by simpa using h)

theorem noDigitSplit_of_no_underscore (l : Str)
    (hl : ∀ c ∈ l, ¬(c = '_')) : NoDigitSplit l := by
  intro j e1 e2 tl h
  have hmem : '_' ∈ l.drop j := by rw [h]; exact List.mem_cons_self _ _
  exact absurd rfl (hl '_' (List.drop_subset j l hmem))

/-- Characters allowed in an alphanumeric temporary key. -/
def isAlphaNumChar (c : Char) : Bool := isAsciiAlpha c || isAsciiDigit c

theorem noDigitSplit_tmp (k : Str) (hk : k.all isAlphaNumChar = true) :
    NoDigitSplit ("_tmp".data ++ k) := by
  have hknu : NoDigitSplit k := by
    refine noDigitSplit_of_no_underscore k (fun c hc hceq => ?_)
    have := (List.all_eq_true.mp hk) c hc
    subst hceq
    simp [isAlphaNumChar, isAsciiAlpha, isAsciiDigit] at this
  show NoDigitSplit ('_' :: 't' :: 'm' :: 'p' :: k)
  refine noDigitSplit_underscore 't' 'm' ('p' :: k) (by decide) ?_
  refine noDigitSplit_cons 't' _ (by decide) ?_
  refine noDigitSplit_cons 'm' _ (by decide) ?_
  exact noDigitSplit_cons 'p' _ (by decide) hknu

/-- Shape of the optional temporary-key segment of an emitted name. -/
def TmpShape (T : Str) (key : Option Str) : Prop :=
  (T = [] ∧ key = none) ∨
  (∃ k, T = "_tmp".data ++ k ∧ ¬(k = []) ∧ k.all isWordChar = true ∧ key = some k)

/-- Shape of the optional `_base`/`_compacted` segment. -/
def SuffixShape (S : Str) : Prop :=
  S = [] ∨ S = "_base".data ∨ S = "_compacted".data

theorem noDigitSplit_base_append (l : Str) (hl : NoDigitSplit l) :
    NoDigitSplit ("_base".data ++ l) := by
  show NoDigitSplit ('_' :: 'b' :: 'a' :: 's' :: 'e' :: l)
  refine noDigitSplit_underscore 'b' 'a' ('s' :: 'e' :: l) (by decide) ?_
  refine noDigitSplit_cons 'b' _ (by decide) ?_
  refine noDigitSplit_cons 'a' _ (by decide) ?_
  refine noDigitSplit_cons 's' _ (by decide) ?_
  exact noDigitSplit_cons 'e' _ (by decide) hl

theorem noDigitSplit_compacted_append (l : Str) (hl : NoDigitSplit l) :
    NoDigitSplit ("_compacted".data ++ l) := by
  show NoDigitSplit ('_' :: 'c' :: 'o' :: 'm' :: 'p' :: 'a' :: 'c' :: 't' :: 'e' :: 'd' :: l)
  refine noDigitSplit_underscore 'c' 'o' _ (by decide) ?_
  refine noDigitSplit_cons 'c' _ (by decide) ?_
  refine noDigitSplit_cons 'o' _ (by decide) ?_
  refine noDigitSplit_cons 'm' _ (by decide) ?_
  refine noDigitSplit_cons 'p' _ (by decide) ?_
  refine noDigitSplit_cons 'a' _ (by decide) ?_
  refine noDigitSplit_cons 'c' _ (by decide) ?_
  refine noDigitSplit_cons 't' _ (by decide) ?_
  refine noDigitSplit_cons 'e' _ (by decide) ?_
  exact noDigitSplit_cons 'd' _ (by decide) hl

/-- The whole portion of an emitted table name following the basename
and the `_RR` digits admits no `_dd` split point. -/
theorem noDigitSplit_suffix_tmp (S T : Str) (key : Option Str)
    (hS : SuffixShape S) (hT : TmpShape T key)
    (halnum : ∀ k, key = some k → k.all isAlphaNumChar = true) :
    NoDigitSplit (S ++ T) := by
  have hTnd : NoDigitSplit T := by
    rcases hT with ⟨h, -⟩ | ⟨k, hk, -, -, hkey⟩
    · exact h ▸ noDigitSplit_nil
    · exact hk ▸ noDigitSplit_tmp k (halnum k hkey)
  rcases hS with h | h | h <;> subst h
  · simpa using hTnd
  · exact noDigitSplit_base_append T hTnd
  · exact noDigitSplit_compacted_append T hTnd

/-- Unfolding characterization of `validSplitAt`. -/
theorem validSplitAt_iff (cs : Str) (i : Nat) :
    validSplitAt cs i = true ↔
      g1Matches (cs.take i) = true ∧
      ∃ d1 d2 tl, cs.drop i = '_' :: d1 :: d2 :: tl ∧
        isAsciiDigit d1 = true ∧ isAsciiDigit d2 = true ∧
        (matchSuffixGroups tl).isSome = true := by
  unfold validSplitAt
  constructor
  · intro h
    rw [Bool.and_eq_true] at h
    obtain ⟨hg, hm⟩ := h
    refine ⟨hg, ?_⟩
    split at hm
    next d1 d2 tl heq =>
      rw [Bool.and_eq_true, Bool.and_eq_true] at hm
      exact ⟨d1, d2, tl, heq, hm.1.1, hm.1.2, hm.2⟩
    next => exact absurd hm (by simp)
  · rintro ⟨hg, d1, d2, tl, heq, h1, h2, h3⟩
    rw [Bool.and_eq_true]
    refine ⟨hg, ?_⟩
    rw [heq]
    simp [h1, h2, h3]

theorem drop_four_tmp (k : Str) : ("_tmp".data ++ k).drop 4 = k := rfl

/-- Characterization of the temporary-key group matcher. -/
theorem matchTmpGroup_eq_some_iff (l : Str) (key : Option Str) :
    matchTmpGroup l = some key ↔ TmpShape l key := by
  unfold matchTmpGroup TmpShape
  split_ifs with h1 h2 h3
  · simp only [Option.some_inj]
    constructor
    · intro h
      exact Or.inl ⟨List.isEmpty_iff.mp h1, h.symm⟩
    · rintro (⟨-, hk⟩ | ⟨k, hl, -, -, -⟩)
      · exact hk.symm
      · rw [List.isEmpty_iff] at h1
        subst h1
        simp at hl
  · rw [Bool.and_eq_true] at h3
    obtain ⟨hne, hall⟩ := h3
    simp only [Option.some_inj]
    have hpre : "_tmp".data ++ l.drop 4 = l := by
      have := List.prefix_iff_eq_append.mp (List.isPrefixOf_iff_prefix.mp h2)
      simpa using this
    constructor
    · intro h
      refine Or.inr ⟨l.drop 4, hpre.symm, ?_, hall, h.symm⟩
      intro hnil
      rw [hnil] at hne
      simp at hne
    · rintro (⟨hl, -⟩ | ⟨k, hl, -, -, hkey⟩)
      · subst hl; simp at h1
      · have hkd : k = l.drop 4 := by
          rw [hl, drop_four_tmp]
        rw [hkey, hkd]
  · constructor
    · intro h; simp at h
    · rintro (⟨hl, -⟩ | ⟨k, hl, hk, hkall, -⟩)
      · subst hl; simp at h1
      · subst hl
        rw [drop_four_tmp] at h3
        refine absurd ?_ h3
        rw [Bool.and_eq_true]
        refine ⟨?_, hkall⟩
        cases k with
        | nil => exact absurd rfl hk
        | cons a as => rfl
  · constructor
    · intro h; simp at h
    · rintro (⟨hl, -⟩ | ⟨k, hl, -, -, -⟩)
      · subst hl; simp at h1
      · subst hl
        have : "_tmp".data.isPrefixOf ("_tmp".data ++ k) = true := by
          rw [List.isPrefixOf_iff_prefix]
          exact List.prefix_append _ _
        exact absurd this h2

/-- Relation between the matched suffix word and the `S` segment. -/
def SfxShape (S : Str) (sfx : Option Str) : Prop :=
  (S = [] ∧ sfx = none) ∨ (S = "_base".data ∧ sfx = some "base".data) ∨
    (S = "_compacted".data ∧ sfx = some "compacted".data)

theorem matchSuffixGroups_eq_some_iff (l : Str) (sfx key : Option Str) :
    matchSuffixGroups l = some (sfx, key) ↔
      ∃ S T, l = S ++ T ∧ SfxShape S sfx ∧ TmpShape T key := by
  constructor
  · intro h
    unfold matchSuffixGroups at h
    split_ifs at h with h1 h2
    · -- "_base" is a prefix of l
      have hpre : "_base".data ++ l.drop 5 = l := by
        have := List.prefix_iff_eq_append.mp (List.isPrefixOf_iff_prefix.mp h1)
        simpa using this
      cases htg : matchTmpGroup (l.drop 5) with
      | some k0 =>
        rw [htg] at h
        simp only [Option.some_inj, Prod.mk.injEq] at h
        refine ⟨"_base".data, l.drop 5, hpre.symm, Or.inr (Or.inl ⟨rfl, h.1.symm⟩), ?_⟩
        rw [← h.2]
        exact (matchTmpGroup_eq_some_iff _ _).mp htg
      | none =>
        rw [htg] at h
        simp only [Option.map_eq_some'] at h
        obtain ⟨k0, hk0, hpair⟩ := h
        simp only [Prod.mk.injEq] at hpair
        refine ⟨[], l, by simp, Or.inl ⟨rfl, hpair.1.symm⟩, ?_⟩
        rw [← hpair.2]
        exact (matchTmpGroup_eq_some_iff _ _).mp hk0
    · -- "_compacted" is a prefix of l
      have hpre : "_compacted".data ++ l.drop 10 = l := by
        have := List.prefix_iff_eq_append.mp (List.isPrefixOf_iff_prefix.mp h2)
        simpa using this
      cases htg : matchTmpGroup (l.drop 10) with
      | some k0 =>
        rw [htg] at h
        simp only [Option.some_inj, Prod.mk.injEq] at h
        refine ⟨"_compacted".data, l.drop 10, hpre.symm,
          Or.inr (Or.inr ⟨rfl, h.1.symm⟩), ?_⟩
        rw [← h.2]
        exact (matchTmpGroup_eq_some_iff _ _).mp htg
      | none =>
        rw [htg] at h
        simp only [Option.map_eq_some'] at h
        obtain ⟨k0, hk0, hpair⟩ := h
        simp only [Prod.mk.injEq] at hpair
        refine ⟨[], l, by simp, Or.inl ⟨rfl, hpair.1.symm⟩, ?_⟩
        rw [← hpair.2]
        exact (matchTmpGroup_eq_some_iff _ _).mp hk0
    · -- neither suffix word is a prefix
      simp only [Option.map_eq_some'] at h
      obtain ⟨k0, hk0, hpair⟩ := h
      simp only [Prod.mk.injEq] at hpair
      refine ⟨[], l, by simp, Or.inl ⟨rfl, hpair.1.symm⟩, ?_⟩
      rw [← hpair.2]
      exact (matchTmpGroup_eq_some_iff _ _).mp hk0
  · rintro ⟨S, T, rfl, hS, hT⟩
    have hTm : matchTmpGroup T = some key := (matchTmpGroup_eq_some_iff _ _).mpr hT
    rcases hS with ⟨rfl, rfl⟩ | ⟨rfl, rfl⟩ | ⟨rfl, rfl⟩
    · -- S = []
      simp only [List.nil_append]
      rcases hT with ⟨rfl, rfl⟩ | ⟨k, rfl, hk, -, rfl⟩
      · rfl
      · have hdef : matchSuffixGroups ("_tmp".data ++ k)
            = (matchTmpGroup ("_tmp".data ++ k)).map (fun k => ((none : Option Str), k)) :=
          rfl
        rw [hdef, hTm]
        rfl
    · -- S = "_base"
      have hc : "_base".data.isPrefixOf ("_base".data ++ T) = true := by
        rw [List.isPrefixOf_iff_prefix]
        exact List.prefix_append _ _
      unfold matchSuffixGroups
      rw [if_pos hc, show ("_base".data ++ T).drop 5 = T from rfl, hTm]
    · -- S = "_compacted"
      have hnb : "_base".data.isPrefixOf ("_compacted".data ++ T) = false := rfl
      have hc : "_compacted".data.isPrefixOf ("_compacted".data ++ T) = true := by
        rw [List.isPrefixOf_iff_prefix]
        exact List.prefix_append _ _
      unfold matchSuffixGroups
      rw [if_neg (by simp [hnb]), if_pos hc,
        show ("_compacted".data ++ T).drop 10 = T from rfl, hTm]

/-- Bundled well-formedness of the two-digit zero-padded rendering. -/
def resPad2Ok (n : Nat) : Bool :=
  match resPad2 n with
  | [d1, d2] => isAsciiDigit d1 && isAsciiDigit d2 && (10 * digitVal d1 + digitVal d2 == n)
  | _ => false

theorem resPad2_ok : ∀ n, n < 100 → resPad2Ok n = true := by decide

theorem resPad2_destruct (n : Nat) (hn : n < 100) :
    ∃ d1 d2, resPad2 n = [d1, d2] ∧ isAsciiDigit d1 = true ∧ isAsciiDigit d2 = true ∧
      10 * digitVal d1 + digitVal d2 = n := by
  have h := resPad2_ok n hn
  unfold resPad2Ok at h
  split at h
  next d1 d2 heq =>
    rw [Bool.and_eq_true, Bool.and_eq_true] at h
    exact ⟨d1, d2, heq, h.1.1, h.1.2, by simpa using h.2⟩
  next => exact absurd h (by simp)

/-- Modelled from the spec: `validate_table_name` (§4.3) accepts exactly the
names matching `^[A-Za-z][A-Za-z0-9_]*$`; the module defining it is not among
the provided sources. -/
def validTableNameChars : Str → Bool
  | [] => false
  | c :: rest => isAsciiAlpha c && rest.all isWordChar

theorem isWordChar_ne_newline (c : Char) (h : isWordChar c = true) : ¬(c = '\n') := by
  intro hc
  subst hc
  exact absurd h (by decide)

theorem isAsciiDigit_ne_underscore (c : Char) (h : isAsciiDigit c = true) : ¬(c = '_') := by
  intro hc
  subst hc
  exact absurd h (by decide)

theorem g1Matches_of_valid (B : Str) (hlen : 3 ≤ B.length)
    (hform : validTableNameChars B = true) : g1Matches B = true := by
  cases B with
  | nil => simp at hlen
  | cons c0 rest =>
    cases rest with
    | nil => simp at hlen
    | cons c1 rest' =>
      unfold validTableNameChars at hform
      rw [Bool.and_eq_true] at hform
      obtain ⟨ha, hall⟩ := hform
      rw [List.all_cons, Bool.and_eq_true] at hall
      obtain ⟨hw1, hall'⟩ := hall
      unfold g1Matches
      rw [Bool.and_eq_true, Bool.and_eq_true, Bool.and_eq_true]
      refine ⟨⟨⟨ha, ?_⟩, ?_⟩, hall'⟩
      · simp [isWordChar_ne_newline c1 hw1]
      · cases rest' with
        | nil => simp at hlen
        | cons a b => simp

/-- Splitting later than the true basename never succeeds on an emitted
table name: the digit pair needed after the underscore is not there. -/
theorem validSplitAt_emitted_false (B : Str) (d1 d2 : Char) (S T : Str)
    (key : Option Str) (hd1 : isAsciiDigit d1 = true) (hd2 : isAsciiDigit d2 = true)
    (hS : SuffixShape S) (hT : TmpShape T key)
    (halnum : ∀ k, key = some k → k.all isAlphaNumChar = true) :
    ∀ j, B.length < j → validSplitAt (B ++ '_' :: d1 :: d2 :: (S ++ T)) j = false := by
  intro j hj
  by_contra hcon
  rw [Bool.not_eq_false, validSplitAt_iff] at hcon
  obtain ⟨-, e1, e2, tl, hdrop, he1, he2, -⟩ := hcon
  obtain ⟨m, rfl⟩ : ∃ m, j = B.length + (m + 1) := by
    refine ⟨j - B.length - 1, ?_⟩
    omega
  rw [List.drop_append] at hdrop
  have hnd : NoDigitSplit (d1 :: d2 :: (S ++ T)) := by
    refine noDigitSplit_cons d1 _ (isAsciiDigit_ne_underscore d1 hd1) ?_
    refine noDigitSplit_cons d2 _ (isAsciiDigit_ne_underscore d2 hd2) ?_
    exact noDigitSplit_suffix_tmp S T key hS hT halnum
  have := hnd m e1 e2 tl (by simpa using hdrop)
  rcases this with h | h
  · rw [he1] at h; simp at h
  · rw [he2] at h; simp at h

/-- The `_base`/`_compacted` segment a spec emits. -/
def emittedSuffix (spec : TableSpec) : Str :=
  if spec.has_base_suffix then
    if spec.is_compacted then "_compacted".data else "_base".data
  else []

/-- The temporary-key segment a spec emits. -/
def emittedTmp (spec : TableSpec) : Str :=
  match spec.temporary_key with
  | some k => "_tmp".data ++ k
  | none => []

/-- The suffix word `RE_TABLE` captures on an emitted name. -/
def emittedSfxWord (spec : TableSpec) : Option Str :=
  if spec.has_base_suffix then
    if spec.is_compacted then some "compacted".data else some "base".data
  else none

theorem emitted_sfxShape (spec : TableSpec) :
    SfxShape (emittedSuffix spec) (emittedSfxWord spec) := by
  unfold SfxShape emittedSuffix emittedSfxWord
  rcases hb : spec.has_base_suffix with - | - <;> rcases hc : spec.is_compacted with - | -
  · exact Or.inl ⟨by simp, by simp⟩
  · exact Or.inl ⟨by simp, by simp⟩
  · exact Or.inr (Or.inl ⟨by simp, by simp⟩)
  · exact Or.inr (Or.inr ⟨by simp, by simp⟩)

theorem emitted_tmpShape (spec : TableSpec)
    (htmp : ∀ k, spec.temporary_key = some k →
      ¬(k = []) ∧ k.all isAlphaNumChar = true) :
    TmpShape (emittedTmp spec) spec.temporary_key := by
  unfold TmpShape emittedTmp
  cases hk : spec.temporary_key with
  | none => exact Or.inl ⟨rfl, rfl⟩
  | some k =>
    obtain ⟨hne, hall⟩ := htmp k hk
    refine Or.inr ⟨k, rfl, hne, ?_, rfl⟩
    rw [List.all_eq_true] at hall ⊢
    intro c hc
    have := hall c hc
    unfold isAlphaNumChar at this
    unfold isWordChar
    rw [Bool.or_eq_true]
    exact Or.inl this

theorem sfxShape_suffixShape (S : Str) (sfx : Option Str) (h : SfxShape S sfx) :
    SuffixShape S := by
  rcases h with ⟨h, -⟩ | ⟨h, -⟩ | ⟨h, -⟩
  · exact Or.inl h
  · exact Or.inr (Or.inl h)
  · exact Or.inr (Or.inr h)

theorem to_table_name_decomp (t : Table) (d1 d2 : Char)
    (hpad : resPad2 t.spec.h3_resolution = [d1, d2]) :
    Table.to_table_name t
      = t.basename ++ '_' :: d1 :: d2 :: (emittedSuffix t.spec ++ emittedTmp t.spec) := by
  unfold Table.to_table_name emittedSuffix emittedTmp
  rw [hpad]
  simp

/-- CORRECTED ROUND-TRIP (claim C5, amended).  For any spec whose basename
is accepted by schema validation *and* has at least three characters, whose
resolution is a valid H3 resolution, whose temporary key (when present) is a
non-empty alphanumeric string, and which does not combine `is_compacted`
with a missing base suffix, parsing the emitted table name returns the
identical spec. -/
theorem table_parse_to_table_name_roundtrip (t : Table)
    (hname : validTableNameChars t.basename = true)
    (hlen : 3 ≤ t.basename.length)
    (hres : t.spec.h3_resolution ≤ 15)
    (hcomp : t.spec.is_compacted = true → t.spec.has_base_suffix = true)
    (htmp : ∀ k, t.spec.temporary_key = some k →
      ¬(k = []) ∧ k.all isAlphaNumChar = true) :
    Table.parse (Table.to_table_name t) = some t := by
  obtain ⟨d1, d2, hpad, hd1, hd2, hval⟩ :=
    resPad2_destruct t.spec.h3_resolution (by omega)
  have hdec := to_table_name_decomp t d1 d2 hpad
  have hmsg : matchSuffixGroups (emittedSuffix t.spec ++ emittedTmp t.spec)
      = some (emittedSfxWord t.spec, t.spec.temporary_key) := by
    rw [matchSuffixGroups_eq_some_iff]
    exact ⟨emittedSuffix t.spec, emittedTmp t.spec, rfl,
      emitted_sfxShape t.spec, emitted_tmpShape t.spec htmp⟩
  have hdropB : (t.basename ++ '_' :: d1 :: d2 :: (emittedSuffix t.spec ++ emittedTmp t.spec)).drop
      t.basename.length = '_' :: d1 :: d2 :: (emittedSuffix t.spec ++ emittedTmp t.spec) :=
    List.drop_left _ _
  have htakeB : (t.basename ++ '_' :: d1 :: d2 :: (emittedSuffix t.spec ++ emittedTmp t.spec)).take
      t.basename.length = t.basename :=
    List.take_left _ _
  have hvalid : validSplitAt
      (t.basename ++ '_' :: d1 :: d2 :: (emittedSuffix t.spec ++ emittedTmp t.spec))
      t.basename.length = true := by
    rw [validSplitAt_iff]
    refine ⟨by rw [htakeB]; exact g1Matches_of_valid t.basename hlen hname,
      d1, d2, emittedSuffix t.spec ++ emittedTmp t.spec, hdropB, hd1, hd2, ?_⟩
    rw [hmsg]
    rfl
  have hfalse : ∀ j, t.basename.length < j →
      validSplitAt (t.basename ++ '_' :: d1 :: d2 :: (emittedSuffix t.spec ++ emittedTmp t.spec))
        j = false := by
    intro j hj
    exact validSplitAt_emitted_false t.basename d1 d2 (emittedSuffix t.spec)
      (emittedTmp t.spec) t.spec.temporary_key hd1 hd2
      (sfxShape_suffixShape _ _ (emitted_sfxShape t.spec))
      (emitted_tmpShape t.spec htmp) (fun k hk => (htmp k hk).2) j hj
  have hlenlt : t.basename.length <
      (t.basename ++ '_' :: d1 :: d2 :: (emittedSuffix t.spec ++ emittedTmp t.spec)).length + 1 := by
    rw [List.length_append]
    omega
  have hfind := find_rev_range_eq
    (validSplitAt (t.basename ++ '_' :: d1 :: d2 :: (emittedSuffix t.spec ++ emittedTmp t.spec)))
    ((t.basename ++ '_' :: d1 :: d2 :: (emittedSuffix t.spec ++ emittedTmp t.spec)).length + 1)
    t.basename.length hlenlt hvalid (fun j h1 _ => hfalse j h1)
  rw [hdec]
  simp only [Table.parse, hfind, hdropB, hmsg, htakeB, hval]
  obtain ⟨B0, res, comp, tkey, hbs⟩ := t
  simp only at hcomp ⊢
  unfold emittedSfxWord
  rcases hbs with - | - <;> rcases comp with - | -
  · simp
  · exact absurd (hcomp rfl) (by simp)
  · simp
  · simp

/-- Claim C5, counterexample.  The builder-reachable spec
`{basename := "water", h3_resolution := 5, is_compacted := true,
temporary_key := none, has_base_suffix := false}` emits `water_05`,
which parses back with `is_compacted = false`: the round trip fails. -/
theorem table_roundtrip_counterexample :
    Table.to_table_name ⟨"water".data, ⟨5, true, none, false⟩⟩ = "water_05".data ∧
    Table.parse "water_05".data = some ⟨"water".data, ⟨5, false, none, false⟩⟩ ∧
    ¬(Table.parse (Table.to_table_name ⟨"water".data, ⟨5, true, none, false⟩⟩)
      = some ⟨"water".data, ⟨5, true, none, false⟩⟩) := by decide

/-- Witness for the amended round-trip theorem at a concrete spec. -/
theorem table_parse_to_table_name_roundtrip_witness :
    Table.parse (Table.to_table_name ⟨"water".data, ⟨5, true, some "ab12".data, true⟩⟩)
      = some ⟨"water".data, ⟨5, true, some "ab12".data, true⟩⟩ :=
  table_parse_to_table_name_roundtrip ⟨"water".data, ⟨5, true, some "ab12".data, true⟩⟩
    (by decide) (by decide) (by decide) (fun _ => rfl)
    (fun k hk => by
      injection hk with h
      subst h
      exact ⟨by decide, by decide⟩)

/-- The full `RE_TABLE` grammar as a declarative decomposition. -/
def MatchesTableRegex (cs : Str) : Prop :=
  ∃ B d1 d2 S T key, cs = B ++ '_' :: d1 :: d2 :: (S ++ T) ∧ g1Matches B = true ∧
    isAsciiDigit d1 = true ∧ isAsciiDigit d2 = true ∧ SuffixShape S ∧ TmpShape T key

theorem parse_eval (cs : Str) (i : Nat) (d1 d2 : Char) (tl : Str) (sfx key : Option Str)
    (hf : (List.range (cs.length + 1)).reverse.find? (validSplitAt cs) = some i)
    (hdrop : cs.drop i = '_' :: d1 :: d2 :: tl)
    (hm : matchSuffixGroups tl = some (sfx, key)) :
    Table.parse cs = some ⟨cs.take i, ⟨10 * digitVal d1 + digitVal d2,
      decide (sfx = some "compacted".data), key, sfx.isSome⟩⟩ := by
  simp only [Table.parse, hf, hdrop, hm]

/-- CORRECTED PARSE GRAMMAR (claim C6, amended).  `Table::parse` returns
`some` exactly when the input matches the code's regex
`^([a-zA-Z].[a-zA-Z_0-9]+)_([0-9]{2})(_(base|compacted))?(_tmp([a-zA-Z0-9_]+))?$`
(so the basename has at least three characters and its second character is
unrestricted), `has_base_suffix` is true iff the base/compacted group
matched, `is_compacted` iff it matched as `_compacted`, and any
non-matching input yields `none`, never an error. -/
theorem table_parse_grammar_characterization :
    (∀ cs, (Table.parse cs).isSome = true ↔ MatchesTableRegex cs) ∧
    (∀ cs t, Table.parse cs = some t →
      ∃ d1 d2 S T, cs = t.basename ++ '_' :: d1 :: d2 :: (S ++ T) ∧
        g1Matches t.basename = true ∧ isAsciiDigit d1 = true ∧ isAsciiDigit d2 = true ∧
        SuffixShape S ∧ TmpShape T t.spec.temporary_key ∧
        (t.spec.has_base_suffix = true ↔ ¬(S = [])) ∧
        (t.spec.is_compacted = true ↔ S = "_compacted".data) ∧
        t.spec.h3_resolution = 10 * digitVal d1 + digitVal d2) := by
  have sound : ∀ cs t, Table.parse cs = some t →
      ∃ d1 d2 S T, cs = t.basename ++ '_' :: d1 :: d2 :: (S ++ T) ∧
        g1Matches t.basename = true ∧ isAsciiDigit d1 = true ∧ isAsciiDigit d2 = true ∧
        SuffixShape S ∧ TmpShape T t.spec.temporary_key ∧
        (t.spec.has_base_suffix = true ↔ ¬(S = [])) ∧
        (t.spec.is_compacted = true ↔ S = "_compacted".data) ∧
        t.spec.h3_resolution = 10 * digitVal d1 + digitVal d2 := by
    intro cs t h
    cases hf : (List.range (cs.length + 1)).reverse.find? (validSplitAt cs) with
    | none =>
      unfold Table.parse at h
      rw [hf] at h
      simp at h
    | some i =>
      have hvalid := List.find?_some hf
      rw [validSplitAt_iff] at hvalid
      obtain ⟨hg1, d1, d2, tl, hdrop, hd1, hd2, hsome⟩ := hvalid
      obtain ⟨⟨sfx, key⟩, hm⟩ := Option.isSome_iff_exists.mp hsome
      have heval := parse_eval cs i d1 d2 tl sfx key hf hdrop hm
      rw [heval, Option.some_inj] at h
      obtain ⟨S, T, htl, hS, hT⟩ := (matchSuffixGroups_eq_some_iff tl sfx key).mp hm
      refine ⟨d1, d2, S, T, ?_, ?_, hd1, hd2, sfxShape_suffixShape S sfx hS, ?_, ?_, ?_, ?_⟩
      · rw [← h, ← htl]
        simp only
        rw [← hdrop, List.take_append_drop]
      · rw [← h]
        simpa using hg1
      · rw [← h]
        simp only
        rcases hS with ⟨rfl, rfl⟩ | ⟨rfl, rfl⟩ | ⟨rfl, rfl⟩ <;> exact hT
      · rw [← h]
        simp only
        rcases hS with ⟨rfl, rfl⟩ | ⟨rfl, rfl⟩ | ⟨rfl, rfl⟩ <;> simp
      · rw [← h]
        simp only
        rcases hS with ⟨rfl, rfl⟩ | ⟨rfl, rfl⟩ | ⟨rfl, rfl⟩ <;> simp
      · rw [← h]
  refine ⟨fun cs => ⟨?_, ?_⟩, sound⟩
  · intro h
    obtain ⟨t, ht⟩ := Option.isSome_iff_exists.mp h
    obtain ⟨d1, d2, S, T, hcs, hg1, hd1, hd2, hS, hT, -⟩ := sound cs t ht
    exact ⟨t.basename, d1, d2, S, T, t.spec.temporary_key, hcs, hg1, hd1, hd2, hS, hT⟩
  · rintro ⟨B, d1, d2, S, T, key, rfl, hg1, hd1, hd2, hS, hT⟩
    have hsfx : ∃ sfx, SfxShape S sfx := by
      rcases hS with rfl | rfl | rfl
      · exact ⟨none, Or.inl ⟨rfl, rfl⟩⟩
      · exact ⟨some "base".data, Or.inr (Or.inl ⟨rfl, rfl⟩)⟩
      · exact ⟨some "compacted".data, Or.inr (Or.inr ⟨rfl, rfl⟩)⟩
    obtain ⟨sfx, hSfx⟩ := hsfx
    have hm : matchSuffixGroups (S ++ T) = some (sfx, key) :=
      (matchSuffixGroups_eq_some_iff _ _ _).mpr ⟨S, T, rfl, hSfx, hT⟩
    have hvalid : validSplitAt (B ++ '_' :: d1 :: d2 :: (S ++ T)) B.length = true := by
      rw [validSplitAt_iff]
      refine ⟨by rw [List.take_left]; exact hg1, d1, d2, S ++ T, List.drop_left _ _,
        hd1, hd2, ?_⟩
      rw [hm]
      rfl
    have hfs : ((List.range ((B ++ '_' :: d1 :: d2 :: (S ++ T)).length + 1)).reverse.find?
        (validSplitAt (B ++ '_' :: d1 :: d2 :: (S ++ T)))).isSome = true := by
      rw [List.find?_isSome]
      refine ⟨B.length, ?_, hvalid⟩
      rw [List.mem_reverse, List.mem_range, List.length_append]
      omega
    obtain ⟨i, hf⟩ := Option.isSome_iff_exists.mp hfs
    have hvi := List.find?_some hf
    rw [validSplitAt_iff] at hvi
    obtain ⟨-, e1, e2, tl, hdrop, -, -, hsome⟩ := hvi
    obtain ⟨⟨sfx2, key2⟩, hm2⟩ := Option.isSome_iff_exists.mp hsome
    rw [parse_eval _ i e1 e2 tl sfx2 key2 hf hdrop hm2]
    rfl

/-- Claim C6, counterexample.  `ab_05` matches the grammar stated in the
claim, `^([A-Za-z][A-Za-z0-9_]+)_([0-9]{2})...$` (basename `ab`, two
digits, both optional groups absent), yet `Table::parse` returns `none`:
the code's regex requires a basename of at least three characters. -/
theorem table_parse_grammar_counterexample :
    (isAsciiAlpha 'a' = true ∧ "b".data.all isWordChar = true ∧ ¬("b".data = [])) ∧
    "ab_05".data = "ab".data ++ '_' :: '0' :: '5' :: ([] ++ []) ∧
    isAsciiDigit '0' = true ∧ isAsciiDigit '5' = true ∧
    Table.parse "ab_05".data = none := by decide

/-- Witness applying the grammar characterization at a concrete name. -/
theorem table_parse_grammar_characterization_witness :
    (Table.parse "water_05_compacted".data).isSome = true :=
  (table_parse_grammar_characterization.1 "water_05_compacted".data).mpr
    ⟨"water".data, '0', '5', "_compacted".data, [], none, by decide, by decide,
      by decide, by decide, Or.inr (Or.inr rfl), Or.inl ⟨rfl, rfl⟩⟩

/-! ### Query planner (`TableSet::build_select_query`) -/

/-- An H3 cell, modelled as a base cell plus the digit path: the
resolution is the number of digits, `get_parent` truncates the path and
`get_children` extends it by all digit combinations. -/
structure H3Cell where
  baseCell : Nat
  digits : List Nat
deriving DecidableEq, Repr

def H3Cell.resolution (c : H3Cell) : Nat := c.digits.length

def H3Cell.get_parent (c : H3Cell) (r : Nat) : H3Cell :=
  ⟨c.baseCell, c.digits.take r⟩

/-- All digit paths of the given length (seven children per level). -/
def digitSeqs : Nat → List (List Nat)
  | 0 => [[]]
  | n + 1 => (digitSeqs n).flatMap (fun s => (List.range 7).map (fun d => s ++ [d]))

def H3Cell.get_children (c : H3Cell) (r : Nat) : List H3Cell :=
  (digitSeqs (r - c.resolution)).map (fun s => ⟨c.baseCell, c.digits ++ s⟩)

/-- Injective-enough textual rendering of a cell id for SQL assembly (the
`u64` encoding of the index is abstracted). -/
def H3Cell.idStr (c : H3Cell) : Str :=
  Nat.toDigits 10 c.baseCell ++ c.digits.flatMap (fun d => Nat.toDigits 10 d)

/-- `TableSetQuery` of `h3cellstore/src/clickhouse/tableset.rs`. -/
inductive TableSetQuery where
  | autoGenerated : TableSetQuery
  | templatedSelect (s : Str) : TableSetQuery

/-- The error variants `build_select_query` can produce. -/
inductive QueryError where
  | missingQueryPlaceholder (p : Str) : QueryError
  | emptyCells : QueryError
  | mixedH3Resolutions : QueryError
  | noQueryableTables : QueryError
deriving DecidableEq, Repr

/-- `str::contains` for a literal needle. -/
def containsSub (hay needle : Str) : Bool :=
  (List.range (hay.length + 1)).any (fun i => needle.isPrefixOf (hay.drop i))

/-- `TableSetQuery::validate`: a templated select must contain both
placeholders, checked in order. -/
def TableSetQuery.validate : TableSetQuery → Except QueryError Unit
  | .autoGenerated => .ok ()
  | .templatedSelect qs =>
    if !containsSub qs "<[table]>".data then
      .error (.missingQueryPlaceholder "<[table]>".data)
    else if !containsSub qs "<[h3indexes]>".data then
      .error (.missingQueryPlaceholder "<[h3indexes]>".data)
    else .ok ()

/-- `TableSet` of `h3cellstore/src/clickhouse/tableset.rs`.  The hash maps
are modelled as association lists; list order stands for the (unspecified)
iteration order. -/
structure MTableSet where
  basename : Str
  columns : List (Str × Str)
  base_tables : List (Nat × TableSpec)
  compacted_tables : List (Nat × TableSpec)

def lookupRes (l : List (Nat × TableSpec)) (r : Nat) : Option TableSpec :=
  (l.find? (fun p => p.1 == r)).map (·.2)

/-- Rust `itertools::join`. -/
def joinSep (sep : Str) : List Str → Str
  | [] => []
  | [x] => x
  | x :: xs => x ++ sep ++ joinSep sep xs

/-- `HashSet::insert` modelled on lists: keep first occurrences. -/
def insertIfAbsent (x : H3Cell) (l : List H3Cell) : List H3Cell :=
  if x ∈ l then l else l ++ [x]

/-- The per-resolution ancestor set collected by the cell loop of
`build_select_query`. -/
def parentsAt (cells : List H3Cell) (r : Nat) : List H3Cell :=
  cells.foldl (fun acc c => insertIfAbsent (c.get_parent r) acc) []

/-- The resolutions `r ≤ R` at which the tableset owns a base or a
compacted table (the key set of `queryable_h3indexes`). -/
def queryableResolutions (ts : MTableSet) (R : Nat) : List Nat :=
  (((ts.base_tables ++ ts.compacted_tables).map Prod.fst).filter (· ≤ R)).dedup

/-- The table name targeted for resolution `r` (lines 253-268 of
`tableset.rs`): compacted naming for `r ≠ R`, base naming for `r = R`,
`has_base_suffix` defaulting to `true` when the looked-up table is absent. -/
def tableNameForRes (ts : MTableSet) (R r : Nat) : Str :=
  Table.to_table_name
    ⟨ts.basename,
      ⟨r, !(r == R),
        none,
        ((if !(r == R) then lookupRes ts.compacted_tables r
          else lookupRes ts.base_tables r).map
            (fun spec => spec.has_base_suffix)).getD true⟩⟩

/-- The bracketed, comma-joined ancestor list for resolution `r`. -/
def h3indexesArrayStr (cells : List H3Cell) (r : Nat) : Str :=
  '[' :: joinSep ",".data ((parentsAt cells r).map H3Cell.idStr) ++ "]".data

/-- The columns joined into an auto-generated select (all catalog columns
whose name does not start with `h3index`). -/
def selectableColumns (ts : MTableSet) : Str :=
  joinSep ", ".data
    (((ts.columns.map Prod.fst).filter (fun n => !("h3index".data.isPrefixOf n))))

/-- Rust `str::replace`: replace every occurrence of `needle`. -/
def replaceSub (needle repl : Str) : Str → Str
  | [] => []
  | c :: rest =>
    if !needle.isEmpty && needle.isPrefixOf (c :: rest) then
      repl ++ replaceSub needle repl ((c :: rest).drop needle.length)
    else c :: replaceSub needle repl rest
termination_by l => l.length
decreasing_by
  · simp only [List.length_drop, List.length_cons]
    rename_i hcond
    rw [Bool.and_eq_true] at hcond
    have : needle.length ≠ 0 := by
      intro h0
      rw [List.length_eq_zero] at h0
      subst h0
      simp at hcond
    omega
  · simp

/-- One sub-query of the union (the body of the planner loop). -/
def subqueryFor (ts : MTableSet) (cells : List H3Cell) (q : TableSetQuery)
    (R r : Nat) : Str :=
  match q with
  | .autoGenerated =>
    "select ".data ++ "h3index".data ++ ", ".data ++ selectableColumns ts
      ++ " from ".data ++ tableNameForRes ts R r ++ " where ".data
      ++ "h3index".data ++ " in ".data ++ h3indexesArrayStr cells r
  | .templatedSelect qs =>
    replaceSub "<[h3indexes]>".data (h3indexesArrayStr cells r)
      (replaceSub "<[table]>".data (tableNameForRes ts R r) qs)

/-- `TableSet::build_select_query` of
`h3cellstore/src/clickhouse/tableset.rs` lines 202-291. -/
def build_select_query (ts : MTableSet) (cells : List H3Cell) (q : TableSetQuery) :
    Except QueryError Str := do
  q.validate
  let R ← match cells.head? with
    | some c => pure c.resolution
    | none => throw QueryError.emptyCells
  if cells.any (fun c => !(c.resolution == R)) then
    throw QueryError.mixedH3Resolutions
  else
    if (queryableResolutions ts R).isEmpty then
      throw QueryError.noQueryableTables
    else
      pure (joinSep " union all ".data
        (((List.range (R + 1)).filter (· ∈ queryableResolutions ts R)).map
          (subqueryFor ts cells q R)))

theorem lookupRes_isSome_iff (l : List (Nat × TableSpec)) (r : Nat) :
    (lookupRes l r).isSome = true ↔ r ∈ l.map Prod.fst := by
  unfold lookupRes
  rw [Option.isSome_map', List.find?_isSome, List.mem_map]
  constructor
  · rintro ⟨p, hp, hbeq⟩
    exact ⟨p, hp, by simpa using hbeq⟩
  · rintro ⟨p, hp, hfst⟩
    exact ⟨p, hp, by simpa using hfst⟩

theorem mem_queryableResolutions_iff (ts : MTableSet) (R r : Nat) :
    r ∈ queryableResolutions ts R ↔
      r ≤ R ∧ ((lookupRes ts.base_tables r).isSome = true ∨
        (lookupRes ts.compacted_tables r).isSome = true) := by
  unfold queryableResolutions
  rw [List.mem_dedup, List.mem_filter, List.map_append, List.mem_append]
  rw [lookupRes_isSome_iff, lookupRes_isSome_iff]
  constructor
  · rintro ⟨hmem, hle⟩
    exact ⟨by simpa using hle, hmem⟩
  · rintro ⟨hle, hmem⟩
    exact ⟨hmem, by simpa using hle⟩

theorem validate_ok_iff (q : TableSetQuery) :
    q.validate = .ok () ↔
      (q = .autoGenerated ∨ ∃ s, q = .templatedSelect s ∧
        containsSub s "<[table]>".data = true ∧
        containsSub s "<[h3indexes]>".data = true) := by
  cases q with
  | autoGenerated => simp [TableSetQuery.validate]
  | templatedSelect s =>
    simp only [TableSetQuery.validate]
    split_ifs with h1 h2
    · simp only [Bool.not_eq_true'] at h1
      constructor
      · intro h; simp at h
      · rintro (h | ⟨s2, hs2, hc1, -⟩)
        · simp at h
        · injection hs2 with hss
          subst hss
          rw [h1] at hc1
          simp at hc1
    · simp only [Bool.not_eq_true'] at h2
      constructor
      · intro h; simp at h
      · rintro (h | ⟨s2, hs2, -, hc2⟩)
        · simp at h
        · injection hs2 with hss
          subst hss
          rw [h2] at hc2
          simp at hc2
    · have h1' : containsSub s "<[table]>".data = true := by
        cases hcs : containsSub s "<[table]>".data
        · exact absurd (by rw [hcs]; rfl) h1
        · rfl
      have h2' : containsSub s "<[h3indexes]>".data = true := by
        cases hcs : containsSub s "<[h3indexes]>".data
        · exact absurd (by rw [hcs]; rfl) h2
        · rfl
      constructor
      · intro _
        exact Or.inr ⟨s, rfl, h1', h2'⟩
      · intro _
        rfl

theorem validate_error_placeholder (q : TableSetQuery) (e : QueryError)
    (h : q.validate = .error e) :
    ∃ p, e = .missingQueryPlaceholder p ∧
      (p = "<[table]>".data ∨ p = "<[h3indexes]>".data) := by
  cases q with
  | autoGenerated => simp [TableSetQuery.validate] at h
  | templatedSelect s =>
    simp only [TableSetQuery.validate] at h
    split_ifs at h
    · injection h with he
      exact ⟨"<[table]>".data, he.symm, Or.inl rfl⟩
    · injection h with he
      exact ⟨"<[h3indexes]>".data, he.symm, Or.inr rfl⟩

instance {ε α : Type} [DecidableEq ε] [DecidableEq α] : DecidableEq (Except ε α) :=
  fun x y =>
  match x, y with
  | .ok a, .ok b =>
    if h : a = b then .isTrue (h ▸ rfl) else .isFalse (fun hc => h (by injection hc))
  | .error a, .error b =>
    if h : a = b then .isTrue (h ▸ rfl) else .isFalse (fun hc => h (by injection hc))
  | .ok _, .error _ => .isFalse (fun hc => Except.noConfusion hc)
  | .error _, .ok _ => .isFalse (fun hc => Except.noConfusion hc)

theorem except_bind_ok {ε α β : Type} (x : α) (f : α → Except ε β) :
    ((Except.ok x : Except ε α) >>= f) = f x := rfl

theorem except_bind_error {ε α β : Type} (e : ε) (f : α → Except ε β) :
    ((Except.error e : Except ε α) >>= f) = Except.error e := rfl

theorem except_pure_bind {ε α β : Type} (x : α) (f : α → Except ε β) :
    ((pure x : Except ε α) >>= f) = f x := rfl

theorem build_select_query_cons (ts : MTableSet) (a : H3Cell) (as : List H3Cell)
    (q : TableSetQuery) (hv : TableSetQuery.validate q = .ok ()) :
    build_select_query ts (a :: as) q =
      (if ((a :: as).any fun c => !(c.resolution == a.resolution)) = true
       then Except.error QueryError.mixedH3Resolutions
       else if (queryableResolutions ts a.resolution).isEmpty = true
       then Except.error QueryError.noQueryableTables
       else Except.ok (joinSep " union all ".data
         (((List.range (a.resolution + 1)).filter
             (· ∈ queryableResolutions ts a.resolution)).map
           (subqueryFor ts (a :: as) q a.resolution)))) := by
  simp only [build_select_query, hv, except_bind_ok, List.head?_cons, except_pure_bind]
  rfl

/-- CLAIM C4.  `build_select_query` fails with `MissingQueryPlaceholder`
exactly when a templated query lacks a placeholder (checked before
anything else), then `EmptyCells` on an empty slice, then
`MixedH3Resolutions` when resolutions differ, then `NoQueryableTables`
when no base or compacted table exists at any resolution `r ≤ R`, and
otherwise returns a query string. -/
theorem build_select_query_error_taxonomy :
    (∀ ts cells q e, TableSetQuery.validate q = .error e →
      build_select_query ts cells q = .error e ∧
      ∃ p, e = QueryError.missingQueryPlaceholder p ∧
        (p = "<[table]>".data ∨ p = "<[h3indexes]>".data)) ∧
    (∀ q, TableSetQuery.validate q = .ok () ↔
      (q = .autoGenerated ∨ ∃ s, q = .templatedSelect s ∧
        containsSub s "<[table]>".data = true ∧
        containsSub s "<[h3indexes]>".data = true)) ∧
    (∀ ts q, TableSetQuery.validate q = .ok () →
      build_select_query ts [] q = .error QueryError.emptyCells) ∧
    (∀ ts cells q c0, TableSetQuery.validate q = .ok () →
      cells.head? = some c0 →
      (∃ c ∈ cells, ¬(c.resolution = c0.resolution)) →
      build_select_query ts cells q = .error QueryError.mixedH3Resolutions) ∧
    (∀ ts cells q c0, TableSetQuery.validate q = .ok () →
      cells.head? = some c0 →
      (∀ c ∈ cells, c.resolution = c0.resolution) →
      (∀ r, r ≤ c0.resolution →
        lookupRes ts.base_tables r = none ∧ lookupRes ts.compacted_tables r = none) →
      build_select_query ts cells q = .error QueryError.noQueryableTables) ∧
    (∀ ts cells q c0, TableSetQuery.validate q = .ok () →
      cells.head? = some c0 →
      (∀ c ∈ cells, c.resolution = c0.resolution) →
      (∃ r, r ≤ c0.resolution ∧ ((lookupRes ts.base_tables r).isSome = true ∨
        (lookupRes ts.compacted_tables r).isSome = true)) →
      ∃ s, build_select_query ts cells q = Except.ok s) := by
  refine ⟨?_, validate_ok_iff, ?_, ?_, ?_, ?_⟩
  · intro ts cells q e hv
    refine ⟨?_, validate_error_placeholder q e hv⟩
    simp only [build_select_query, hv, except_bind_error]
  · intro ts q hv
    simp only [build_select_query, hv, except_bind_ok]
    rfl
  · intro ts cells q c0 hv hhead hmixed
    have hany : cells.any (fun c => !(c.resolution == c0.resolution)) = true := by
      rw [List.any_eq_true]
      obtain ⟨c, hc, hne⟩ := hmixed
      exact ⟨c, hc, by simpa using hne⟩
    cases cells with
    | nil => simp at hhead
    | cons a as =>
      rw [List.head?_cons, Option.some_inj] at hhead
      subst hhead
      rw [build_select_query_cons ts a as q hv, if_pos hany]
  · intro ts cells q c0 hv hhead huni hnone
    have hany : cells.any (fun c => !(c.resolution == c0.resolution)) = false := by
      rw [Bool.eq_false_iff]
      intro hc
      rw [List.any_eq_true] at hc
      obtain ⟨c, hc1, hc2⟩ := hc
      have := huni c hc1
      simp [this] at hc2
    have hempty : (queryableResolutions ts c0.resolution).isEmpty = true := by
      rw [List.isEmpty_iff, List.eq_nil_iff_forall_not_mem]
      intro r hr
      rw [mem_queryableResolutions_iff] at hr
      obtain ⟨hle, hmem | hmem⟩ := hr
      · rw [(hnone r hle).1] at hmem
        simp at hmem
      · rw [(hnone r hle).2] at hmem
        simp at hmem
    cases cells with
    | nil => simp at hhead
    | cons a as =>
      rw [List.head?_cons, Option.some_inj] at hhead
      subst hhead
      rw [build_select_query_cons ts a as q hv, if_neg (by simp [hany]), if_pos hempty]
  · intro ts cells q c0 hv hhead huni hex
    have hany : cells.any (fun c => !(c.resolution == c0.resolution)) = false := by
      rw [Bool.eq_false_iff]
      intro hc
      rw [List.any_eq_true] at hc
      obtain ⟨c, hc1, hc2⟩ := hc
      have := huni c hc1
      simp [this] at hc2
    have hempty : (queryableResolutions ts c0.resolution).isEmpty = false := by
      rw [Bool.eq_false_iff]
      intro hc
      rw [List.isEmpty_iff] at hc
      obtain ⟨r, hle, hmem⟩ := hex
      have : r ∈ queryableResolutions ts c0.resolution :=
        (mem_queryableResolutions_iff ts c0.resolution r).mpr ⟨hle, hmem⟩
      rw [hc] at this
      simp at this
    cases cells with
    | nil => simp at hhead
    | cons a as =>
      rw [List.head?_cons, Option.some_inj] at hhead
      subst hhead
      refine ⟨joinSep " union all ".data
        (((List.range (a.resolution + 1)).filter
            (· ∈ queryableResolutions ts a.resolution)).map
          (subqueryFor ts (a :: as) q a.resolution)), ?_⟩
      rw [build_select_query_cons ts a as q hv, if_neg (by simp [hany]),
        if_neg (by simp [hempty])]

/-- Witness applying the error taxonomy at concrete inputs. -/
theorem build_select_query_error_taxonomy_witness :
    build_select_query ⟨"water".data, [], [(0, ⟨0, false, none, true⟩)], []⟩ []
      .autoGenerated = .error QueryError.emptyCells :=
  build_select_query_error_taxonomy.2.2.1
    ⟨"water".data, [], [(0, ⟨0, false, none, true⟩)], []⟩ .autoGenerated rfl

/-- CORRECTED PLAN SHAPE (claim C3, amended).  On the success path the
planner emits one sub-query for each resolution `r ≤ R` at which the
tableset owns a base *or* a compacted table; the sub-query at `r < R`
targets the compacted table name (even when no compacted table exists at
`r`, in which case `has_base_suffix` defaults to `true`), and the
sub-query at `r = R` targets the base table name. -/
theorem build_select_query_plan (ts : MTableSet) (cells : List H3Cell)
    (q : TableSetQuery) (c0 : H3Cell)
    (hv : TableSetQuery.validate q = .ok ())
    (hhead : cells.head? = some c0)
    (huni : ∀ c ∈ cells, c.resolution = c0.resolution)
    (hex : ∃ r, r ≤ c0.resolution ∧ ((lookupRes ts.base_tables r).isSome = true ∨
      (lookupRes ts.compacted_tables r).isSome = true)) :
    build_select_query ts cells q = Except.ok (joinSep " union all ".data
      (((List.range (c0.resolution + 1)).filter
          (fun r => (lookupRes ts.base_tables r).isSome ||
            (lookupRes ts.compacted_tables r).isSome)).map
        (subqueryFor ts cells q c0.resolution))) ∧
    (∀ r, r < c0.resolution →
      tableNameForRes ts c0.resolution r = Table.to_table_name
        ⟨ts.basename, ⟨r, true, none,
          ((lookupRes ts.compacted_tables r).map
            (fun spec => spec.has_base_suffix)).getD true⟩⟩) ∧
    tableNameForRes ts c0.resolution c0.resolution = Table.to_table_name
      ⟨ts.basename, ⟨c0.resolution, false, none,
        ((lookupRes ts.base_tables c0.resolution).map
          (fun spec => spec.has_base_suffix)).getD true⟩⟩ := by
  refine ⟨?_, ?_, ?_⟩
  · have hfilter : (List.range (c0.resolution + 1)).filter
        (· ∈ queryableResolutions ts c0.resolution)
        = (List.range (c0.resolution + 1)).filter
          (fun r => (lookupRes ts.base_tables r).isSome ||
            (lookupRes ts.compacted_tables r).isSome) := by
      apply List.filter_congr
      intro r hr
      rw [List.mem_range] at hr
      by_cases hmem : r ∈ queryableResolutions ts c0.resolution
      · have hd : decide (r ∈ queryableResolutions ts c0.resolution) = true := by
          simpa using hmem
        rw [hd]
        have h2 := (mem_queryableResolutions_iff ts c0.resolution r).mp hmem
        rcases h2.2 with h | h
        · simp [h]
        · simp [h]
      · have hd : decide (r ∈ queryableResolutions ts c0.resolution) = false := by
          simpa using hmem
        rw [hd]
        have hb : (lookupRes ts.base_tables r).isSome = false := by
          cases hx : (lookupRes ts.base_tables r).isSome
          · rfl
          · exact absurd ((mem_queryableResolutions_iff ts c0.resolution r).mpr
              ⟨by omega, Or.inl hx⟩) hmem
        have hc : (lookupRes ts.compacted_tables r).isSome = false := by
          cases hx : (lookupRes ts.compacted_tables r).isSome
          · rfl
          · exact absurd ((mem_queryableResolutions_iff ts c0.resolution r).mpr
              ⟨by omega, Or.inr hx⟩) hmem
        rw [hb, hc]
        rfl
    have hany : cells.any (fun c => !(c.resolution == c0.resolution)) = false := by
      rw [Bool.eq_false_iff]
      intro hc
      rw [List.any_eq_true] at hc
      obtain ⟨c, hc1, hc2⟩ := hc
      have := huni c hc1
      simp [this] at hc2
    have hempty : (queryableResolutions ts c0.resolution).isEmpty = false := by
      rw [Bool.eq_false_iff]
      intro hc
      rw [List.isEmpty_iff] at hc
      obtain ⟨r, hle, hmem⟩ := hex
      have : r ∈ queryableResolutions ts c0.resolution :=
        (mem_queryableResolutions_iff ts c0.resolution r).mpr ⟨hle, hmem⟩
      rw [hc] at this
      simp at this
    cases cells with
    | nil => simp at hhead
    | cons a as =>
      rw [List.head?_cons, Option.some_inj] at hhead
      subst hhead
      rw [build_select_query_cons ts a as q hv, if_neg (by simp [hany]),
        if_neg (by simp [hempty]), hfilter]
  · intro r hr
    unfold tableNameForRes
    have hbeq : (r == c0.resolution) = false := by
      rw [beq_eq_false_iff_ne]
      omega
    rw [hbeq]
    rfl
  · unfold tableNameForRes
    simp

/-- Witness applying the plan-shape theorem at a concrete tableset. -/
theorem build_select_query_plan_witness :
    build_select_query
        ⟨"water".data, [], [(1, ⟨1, false, none, true⟩)], [(0, ⟨0, true, none, true⟩)]⟩
        [⟨0, [2]⟩] .autoGenerated
      = Except.ok (joinSep " union all ".data
          (((List.range 2).filter
              (fun r => (lookupRes [(1, ⟨1, false, none, true⟩)] r).isSome ||
                (lookupRes [(0, ⟨0, true, none, true⟩)] r).isSome)).map
            (subqueryFor
              ⟨"water".data, [], [(1, ⟨1, false, none, true⟩)], [(0, ⟨0, true, none, true⟩)]⟩
              [⟨0, [2]⟩] .autoGenerated 1))) :=
  (build_select_query_plan
    ⟨"water".data, [], [(1, ⟨1, false, none, true⟩)], [(0, ⟨0, true, none, true⟩)]⟩
    [⟨0, [2]⟩] .autoGenerated ⟨0, [2]⟩ rfl rfl
    (by
      intro c hc
      simp at hc
      subst hc
      rfl)
    ⟨1, by decide, Or.inl (by decide)⟩).1

/-- Claim C3, counterexample.  A tableset owning only a *base* table at
resolution 0 and nothing at resolution 1, queried with a single cell at
resolution 1: the code still emits a sub-query at `r = 0 < R`, and that
sub-query targets the *compacted* table name `water_00_compacted`, which
the tableset does not own. -/
theorem build_select_query_plan_counterexample :
    build_select_query
        ⟨"water".data, [("val".data, "UInt8".data)], [(0, ⟨0, false, none, true⟩)], []⟩
        [⟨0, [3]⟩] .autoGenerated
      = .ok "select h3index, val from water_00_compacted where h3index in [0]".data ∧
    lookupRes ([] : List (Nat × TableSpec)) 0 = none ∧
    containsSub "select h3index, val from water_00_compacted where h3index in [0]".data
      "water_00_compacted".data = true := by decide

/-! ### Uncompaction engine (`query_all_with_uncompacting`) -/

/-- The error variants of `bamboo_h3_int` used by the uncompaction path. -/
inductive UncompactError where
  | emptyIndexes : UncompactError
  | columnNotFound (n : Str) : UncompactError
  | invalidH3Resolution (r : Nat) : UncompactError
deriving DecidableEq, Repr

/-- The h3index-column walk of `query_all_with_uncompacting`
(`bamboo_h3_int/src/clickhouse/query.rs` lines 147-175): per row, a cell
below the target resolution contributes its children intersected with the
query set, a cell at the target resolution contributes itself, and a finer
cell aborts with `InvalidH3Resolution`.  Returns the expanded h3 vector
and the per-row repetition counts. -/
def uncompactH3Column (h3res : Nat) (s : List H3Cell) :
    List H3Cell → Except UncompactError (List H3Cell × List Nat)
  | [] => .ok ([], [])
  | c :: rest =>
    if c.resolution < h3res then
      match uncompactH3Column h3res s rest with
      | .ok (v, reps) =>
        .ok (((c.get_children h3res).filter (· ∈ s)) ++ v,
          ((c.get_children h3res).filter (· ∈ s)).length :: reps)
      | .error e => .error e
    else if c.resolution = h3res then
      match uncompactH3Column h3res s rest with
      | .ok (v, reps) => .ok (c :: v, 1 :: reps)
      | .error e => .error e
    else .error (.invalidH3Resolution c.resolution)

/-- Modelled from the spec: `ItemRepeatingIterator` (`crate::iter`, whose
source file is not among the provided sources) is "an item-repeating
iterator" emitting the i-th source item `reps[i]` times; `collect_with_reps`
collects it into a new column vector. -/
def collectWithReps {α : Type} (vals : List α) (reps : List Nat) : List α :=
  (List.zipWith (fun v m => List.replicate m v) vals reps).flatten

/-- `query_all_with_uncompacting` (`query.rs` lines 119-190) as a pure
function of the fetched block: the target resolution comes from an element
of the query set (`EmptyIndexes` when empty), the block must carry an
`h3index` column (`ColumnNotFound` otherwise), that column is uncompacted,
and every other column is re-collected with the row repetitions. -/
def query_all_with_uncompacting {α : Type} (s : List H3Cell)
    (h3col : Option (List H3Cell)) (others : List (Str × List α)) :
    Except UncompactError (List H3Cell × List (Str × List α)) :=
  match s.head? with
  | none => .error .emptyIndexes
  | some c0 =>
    match h3col with
    | none => .error (.columnNotFound "h3index".data)
    | some col =>
      match uncompactH3Column c0.resolution s col with
      | .ok (h3vec, reps) =>
        .ok (h3vec, others.map (fun p => (p.1, collectWithReps p.2 reps)))
      | .error e => .error e

theorem uncompact_core (h3res : Nat) (s : List H3Cell) :
    ∀ col h3vec reps, uncompactH3Column h3res s col = .ok (h3vec, reps) →
      reps.length = col.length ∧ h3vec.length = reps.sum ∧
      (∀ i, i < col.length → reps.getD i 0 =
        if (col.getD i ⟨0, []⟩).resolution = h3res then 1
        else (((col.getD i ⟨0, []⟩).get_children h3res).filter (· ∈ s)).length) ∧
      (∀ x ∈ h3vec, x ∈ s ∨ (x ∈ col ∧ x.resolution = h3res)) := by
  intro col
  induction col with
  | nil =>
    intro h3vec reps h
    unfold uncompactH3Column at h
    injection h with h
    injection h with h1 h2
    subst h1
    subst h2
    refine ⟨rfl, rfl, ?_, ?_⟩
    · intro i hi
      simp at hi
    · intro x hx
      simp at hx
  | cons c rest ih =>
    intro h3vec reps h
    unfold uncompactH3Column at h
    split_ifs at h with hlt heq
    · -- resolution below target: children ∩ s contributed
      cases hrec : uncompactH3Column h3res s rest with
      | error e => rw [hrec] at h; exact absurd h (by simp)
      | ok p =>
        obtain ⟨v, reps0⟩ := p
        rw [hrec] at h
        injection h with h
        injection h with h1 h2
        subst h1
        subst h2
        obtain ⟨ihlen, ihsum, ihreps, ihmem⟩ := ih v reps0 hrec
        refine ⟨by simpa using ihlen, ?_, ?_, ?_⟩
        · simp only [List.length_append, List.sum_cons, ihsum]
        · intro i hi
          cases i with
          | zero =>
            simp only [List.getD_cons_zero]
            rw [if_neg (by omega)]
          | succ i =>
            simp only [List.getD_cons_succ]
            exact ihreps i (by simpa using hi)
        · intro x hx
          rw [List.mem_append] at hx
          rcases hx with hx | hx
          · rw [List.mem_filter] at hx
            exact Or.inl (by simpa using hx.2)
          · rcases ihmem x hx with h | ⟨hmem, hres⟩
            · exact Or.inl h
            · exact Or.inr ⟨List.mem_cons_of_mem c hmem, hres⟩
    · -- resolution equal to target: the cell itself, unfiltered
      cases hrec : uncompactH3Column h3res s rest with
      | error e => rw [hrec] at h; exact absurd h (by simp)
      | ok p =>
        obtain ⟨v, reps0⟩ := p
        rw [hrec] at h
        injection h with h
        injection h with h1 h2
        subst h1
        subst h2
        obtain ⟨ihlen, ihsum, ihreps, ihmem⟩ := ih v reps0 hrec
        refine ⟨by simpa using ihlen,
          by simp only [List.length_cons, List.sum_cons, ihsum]; omega, ?_, ?_⟩
        · intro i hi
          cases i with
          | zero =>
            simp only [List.getD_cons_zero]
            rw [if_pos heq]
          | succ i =>
            simp only [List.getD_cons_succ]
            exact ihreps i (by simpa using hi)
        · intro x hx
          rcases List.mem_cons.mp hx with rfl | hx
          · exact Or.inr ⟨List.mem_cons_self _ _, heq⟩
          · rcases ihmem x hx with h | ⟨hmem, hres⟩
            · exact Or.inl h
            · exact Or.inr ⟨List.mem_cons_of_mem c hmem, hres⟩

theorem collectWithReps_length {α : Type} :
    ∀ (vals : List α) (reps : List Nat), vals.length = reps.length →
      (collectWithReps vals reps).length = reps.sum := by
  intro vals
  induction vals with
  | nil =>
    intro reps h
    cases reps with
    | nil => rfl
    | cons a l => simp at h
  | cons v vs ih =>
    intro reps h
    cases reps with
    | nil => simp at h
    | cons m ms =>
      unfold collectWithReps at ih ⊢
      simp only [List.zipWith_cons_cons, List.flatten_cons, List.length_append,
        List.length_replicate, List.sum_cons]
      rw [ih ms (by simpa using h)]

/-- CORRECTED MEMBERSHIP (claim C1, amended).  For an uncompacted query
result against a non-empty cell set `S`: every cell emitted for a row
*below* the target resolution lies in `S` (children are filtered against
`S`), but a row *at* the target resolution emits its own cell without any
membership check — so every emitted cell either lies in `S` or is a
target-resolution cell present verbatim in the fetched h3index column. -/
theorem query_all_with_uncompacting_membership {α : Type} (s col : List H3Cell)
    (others : List (Str × List α)) (c0 : H3Cell) (hhead : s.head? = some c0)
    (h3vec : List H3Cell) (out : List (Str × List α))
    (h : query_all_with_uncompacting s (some col) others = .ok (h3vec, out)) :
    ∀ x ∈ h3vec, x ∈ s ∨ (x ∈ col ∧ x.resolution = c0.resolution) := by
  cases hu : uncompactH3Column c0.resolution s col with
  | error e =>
    simp only [query_all_with_uncompacting, hhead, hu] at h
    exact Except.noConfusion h
  | ok p =>
    obtain ⟨v, reps⟩ := p
    simp only [query_all_with_uncompacting, hhead, hu, Except.ok.injEq,
      Prod.mk.injEq] at h
    obtain ⟨h1, -⟩ := h
    subst h1
    exact (uncompact_core c0.resolution s col _ reps hu).2.2.2

/-- Claim C1, counterexample.  `S = {cell A}` at resolution 1; the fetched
block holds one row whose cell `B ≠ A` is also at resolution 1.  The
uncompacted result emits `B`, which is not a member of `S`. -/
theorem query_all_with_uncompacting_membership_counterexample :
    query_all_with_uncompacting [⟨0, [0]⟩] (some [⟨1, [0]⟩]) ([] : List (Str × List Nat))
      = .ok ([⟨1, [0]⟩], []) ∧
    ¬((⟨1, [0]⟩ : H3Cell) ∈ ([⟨0, [0]⟩] : List H3Cell)) := by decide

/-- Witness applying the membership theorem at a concrete block. -/
theorem query_all_with_uncompacting_membership_witness :
    (⟨0, [0, 0]⟩ : H3Cell) ∈ ([⟨0, [0, 0]⟩] : List H3Cell) ∨
      ((⟨0, [0, 0]⟩ : H3Cell) ∈ ([⟨0, [0]⟩] : List H3Cell) ∧
        (⟨0, [0, 0]⟩ : H3Cell).resolution = (⟨0, [0, 0]⟩ : H3Cell).resolution) :=
  query_all_with_uncompacting_membership [⟨0, [0, 0]⟩] [⟨0, [0]⟩]
    ([] : List (Str × List Nat)) ⟨0, [0, 0]⟩ rfl [⟨0, [0, 0]⟩] [] (by decide)
    ⟨0, [0, 0]⟩ (by decide)

/-- CLAIM C2.  Every uncompacted result block assigns each input row `i` a
repetition count `reps[i]` (1 at the target resolution, `|children ∩ S|`
below it), the expanded h3 vector has length `N = sum reps`, and every
other output column is the source column with its i-th value repeated
exactly `reps[i]` times, so all output columns have length `N`. -/
theorem query_all_with_uncompacting_reps {α : Type} (s col : List H3Cell)
    (others : List (Str × List α)) (c0 : H3Cell) (hhead : s.head? = some c0)
    (hlen : ∀ p ∈ others, (Prod.snd p).length = col.length)
    (h3vec : List H3Cell) (out : List (Str × List α))
    (h : query_all_with_uncompacting s (some col) others = .ok (h3vec, out)) :
    ∃ reps : List Nat,
      uncompactH3Column c0.resolution s col = .ok (h3vec, reps) ∧
      reps.length = col.length ∧
      (∀ i, i < col.length → reps.getD i 0 =
        if (col.getD i ⟨0, []⟩).resolution = c0.resolution then 1
        else (((col.getD i ⟨0, []⟩).get_children c0.resolution).filter (· ∈ s)).length) ∧
      h3vec.length = reps.sum ∧
      out = others.map (fun p => (p.1,
        (List.zipWith (fun v m => List.replicate m v) p.2 reps).flatten)) ∧
      (∀ p ∈ out, (Prod.snd p).length = reps.sum) := by
  cases hu : uncompactH3Column c0.resolution s col with
  | error e =>
    simp only [query_all_with_uncompacting, hhead, hu] at h
    exact Except.noConfusion h
  | ok p =>
    obtain ⟨v, reps⟩ := p
    simp only [query_all_with_uncompacting, hhead, hu, Except.ok.injEq,
      Prod.mk.injEq] at h
    obtain ⟨h1, h2⟩ := h
    subst h1
    obtain ⟨hrl, hsum, hreps, -⟩ := uncompact_core c0.resolution s col _ reps hu
    refine ⟨reps, rfl, hrl, hreps, hsum, ?_, ?_⟩
    · rw [← h2]
      rfl
    · intro q hq
      rw [← h2] at hq
      rw [List.mem_map] at hq
      obtain ⟨p0, hp0, hq0⟩ := hq
      rw [← hq0]
      exact collectWithReps_length p0.2 reps ((hlen p0 hp0).trans hrl.symm)

/-- Witness applying the repetition theorem at a concrete block. -/
theorem query_all_with_uncompacting_reps_witness :
    ∃ reps : List Nat,
      uncompactH3Column (⟨0, [0, 0]⟩ : H3Cell).resolution [⟨0, [0, 0]⟩]
          [⟨0, [0]⟩, ⟨1, [0, 0]⟩] = .ok ([⟨0, [0, 0]⟩, ⟨1, [0, 0]⟩], reps) ∧
      reps.length = ([⟨0, [0]⟩, ⟨1, [0, 0]⟩] : List H3Cell).length ∧
      (∀ i, i < ([⟨0, [0]⟩, ⟨1, [0, 0]⟩] : List H3Cell).length → reps.getD i 0 =
        if (([⟨0, [0]⟩, ⟨1, [0, 0]⟩] : List H3Cell).getD i ⟨0, []⟩).resolution
            = (⟨0, [0, 0]⟩ : H3Cell).resolution then 1
        else (((([⟨0, [0]⟩, ⟨1, [0, 0]⟩] : List H3Cell).getD i
            ⟨0, []⟩).get_children (⟨0, [0, 0]⟩ : H3Cell).resolution).filter
            (· ∈ ([⟨0, [0, 0]⟩] : List H3Cell))).length) ∧
      ([⟨0, [0, 0]⟩, ⟨1, [0, 0]⟩] : List H3Cell).length = reps.sum ∧
      [("count".data, [7, 9])] = [("count".data, ([7, 9] : List Nat))].map
        (fun p => (p.1,
          (List.zipWith (fun v m => List.replicate m v) p.2 reps).flatten)) ∧
      (∀ p ∈ [("count".data, ([7, 9] : List Nat))], (Prod.snd p).length = reps.sum) :=
  query_all_with_uncompacting_reps [⟨0, [0, 0]⟩] [⟨0, [0]⟩, ⟨1, [0, 0]⟩]
    [("count".data, [7, 9])] ⟨0, [0, 0]⟩ rfl (by decide)
    [⟨0, [0, 0]⟩, ⟨1, [0, 0]⟩] [("count".data, [7, 9])] (by decide)

/-! ### Schema compiler (`CompactedTableSchema`) -/

/-- Modelled from the spec: `Datatype` (`columnset.rs`, not among the
sources) is "a closed enum of supported scalar SQL types including
temporal" — the ColVec variants list signed/unsigned 8..64-bit integers,
32/64-bit floats, Date and DateTime. -/
inductive Datatype where
  | u8 | u16 | u32 | u64 | i8 | i16 | i32 | i64 | f32 | f64 | date | dateTime
deriving DecidableEq, Repr

/-- Modelled from the spec: the temporal datatypes are `Date` and
`DateTime`. -/
def Datatype.is_temporal : Datatype → Bool
  | .date => true
  | .dateTime => true
  | _ => false

/-- Modelled from the spec: aggregation methods `Sum | Average | ...`. -/
inductive AggregationMethod where
  | sum | average
deriving DecidableEq, Repr

/-- Modelled from the spec: `SimpleColumn {datatype, order_key_position?}`
(`schema` module, not among the sources). -/
structure SimpleColumn where
  datatype : Datatype
  order_key_position : Option Nat
deriving DecidableEq, Repr

/-- Modelled from the spec: `ColumnDefinition` variants `H3Index`,
`Simple`, `WithAggregation`. -/
inductive ColumnDefinition where
  | h3index : ColumnDefinition
  | simple (c : SimpleColumn) : ColumnDefinition
  | withAggregation (c : SimpleColumn) (agg : AggregationMethod) : ColumnDefinition
deriving DecidableEq, Repr

/-- Modelled from the spec: the `H3Index` column is a fixed `u64`; the
other variants carry their declared datatype. -/
def ColumnDefinition.datatype : ColumnDefinition → Datatype
  | .h3index => .u64
  | .simple c => c.datatype
  | .withAggregation c _ => c.datatype

def ColumnDefinition.order_key_position : ColumnDefinition → Option Nat
  | .h3index => none
  | .simple c => c.order_key_position
  | .withAggregation c _ => c.order_key_position

/-- `TableEngine` of the schema module (variants from the spec and the
`create_statements` match in `compacted_tables.rs`). -/
inductive TableEngine where
  | replacingMergeTree : TableEngine
  | summingMergeTree (cols : List Str) : TableEngine
  | aggregatingMergeTree : TableEngine
deriving DecidableEq, Repr

/-- `CompressionMethod` (variants from the spec and `create_statements`). -/
inductive CompressionMethod where
  | lz4hc (level : Nat) : CompressionMethod
  | zstd (level : Nat) : CompressionMethod
deriving DecidableEq, Repr

/-- Modelled from the spec: `temporal_resolution` exists on the schema; its
variants are irrelevant to the claims. -/
inductive TemporalResolution where
  | second | day
deriving DecidableEq, Repr

/-- `TemporalPartitioning ∈ {Year, Month}`. -/
inductive TemporalPartitioning where
  | year | month
deriving DecidableEq, Repr

/-- `CompactedTableSchema` of
`bamboo_h3_int/src/clickhouse/schema/compacted_tables.rs`.  The column
hash map is an association list; list order stands for iteration order. -/
structure CompactedTableSchema where
  name : Str
  table_engine : TableEngine
  compression_method : CompressionMethod
  h3_base_resolutions : List Nat
  use_compaction : Bool
  temporal_resolution : TemporalResolution
  temporal_partitioning : TemporalPartitioning
  columns : List (Str × ColumnDefinition)
  partition_by_columns : List Str
  has_base_suffix : Bool
deriving DecidableEq, Repr

/-- The schema error variant produced by the partitioning functions. -/
inductive SchemaError where
  | schemaValidationError (owner msg : Str) : SchemaError
deriving DecidableEq, Repr

/-- `partition_by_expression` (`compacted_tables.rs` lines 218-236). -/
def partition_by_expression (column_name : Str) (d : ColumnDefinition)
    (tp : TemporalPartitioning) : Str :=
  match d with
  | .h3index => "h3GetBaseCell(".data ++ column_name ++ ")".data
  | _ =>
    if d.datatype.is_temporal then
      match tp with
      | .year => "toString(toYear(".data ++ column_name ++ "))".data
      | .month => "toString(toMonth(".data ++ column_name ++ "))".data
    else column_name

/-- `CompactedTableSchema::get_column_def` (lines 65-75); the error message
always names the h3index column, as in the source. -/
def get_column_def (s : CompactedTableSchema) (column_name : Str) :
    Except SchemaError ColumnDefinition :=
  match (s.columns.find? (fun p => p.1 == column_name)).map Prod.snd with
  | some d => .ok d
  | none => .error (.schemaValidationError "CompactedTableSchema".data
      ("mandatory column h3index is missing".data))

/-- `CompactedTableSchema::h3index_column` (lines 77-91). -/
def h3index_column (s : CompactedTableSchema) :
    Except SchemaError (Str × ColumnDefinition) :=
  match get_column_def s "h3index".data with
  | .error e => .error e
  | .ok d =>
    if d = .h3index then .ok ("h3index".data, d)
    else .error (.schemaValidationError "CompactedTableSchema".data
      "mandatory column h3index is must be a h3index column".data)

/-- The fold collecting deduplicated temporal partition expressions
(`compacted_tables.rs` lines 108-119). -/
def temporalPartitionEntries (s : CompactedTableSchema) (first : Str) : List Str :=
  s.columns.foldl
    (fun acc p =>
      if p.2.datatype.is_temporal then
        if acc.contains (partition_by_expression p.1 p.2 s.temporal_partitioning)
            || first == partition_by_expression p.1 p.2 s.temporal_partitioning then
          acc
        else acc ++ [partition_by_expression p.1 p.2 s.temporal_partitioning]
      else acc)
    []

/-- `CompactedTableSchema::partition_by_expressions` (lines 94-138). -/
def partition_by_expressions (s : CompactedTableSchema) :
    Except SchemaError (List Str) :=
  match h3index_column s with
  | .error e => .error e
  | .ok (h3name, h3def) =>
    if s.partition_by_columns.isEmpty then
      if (temporalPartitionEntries s
          (partition_by_expression h3name h3def s.temporal_partitioning)).length > 1 then
        .error (.schemaValidationError "CompactedTableSchema".data
          "found multiple temporal columns - explict specification of partitioning columns required".data)
      else
        .ok ([partition_by_expression h3name h3def s.temporal_partitioning]
          ++ temporalPartitionEntries s
              (partition_by_expression h3name h3def s.temporal_partitioning))
    else
      s.partition_by_columns.foldlM
        (fun acc column_name => do
          let d ← get_column_def s column_name
          let e := partition_by_expression column_name d s.temporal_partitioning
          pure (if acc.contains e then acc else acc ++ [e]))
        [partition_by_expression h3name h3def s.temporal_partitioning]

/-- Modelled from the spec: compression levels are validated to
`[1,22]` for ZSTD and `[0,12]` for LZ4HC (§4.3); the defining module is
not among the sources. -/
def validateCompression : CompressionMethod → Bool
  | .lz4hc level => level ≤ 12
  | .zstd level => 1 ≤ level && level ≤ 22

/-- Modelled from the spec: `ordered_h3_resolutions` (`common.rs`, not
among the sources) accepts a sorted, deduplicated list of resolutions in
`[0,15]` (§4.3). -/
def strictlySorted : List Nat → Bool
  | [] => true
  | [_] => true
  | a :: b :: rest => a < b && strictlySorted (b :: rest)

/-- `CompactedTableSchema::validate` (`compacted_tables.rs` lines
238-277); `validate_table_name`, the compression bounds and
`ordered_h3_resolutions` are modelled from the spec (§4.3) because their
modules are not among the sources. -/
def CompactedTableSchema.validate (s : CompactedTableSchema) :
    Except SchemaError Unit := do
  if !validTableNameChars s.name then
    throw (.schemaValidationError "CompactedTableSchema".data
      "invalid table name".data)
  else if !validateCompression s.compression_method then
    throw (.schemaValidationError "CompressionMethod".data
      "invalid compression level".data)
  else do
    let _ ← h3index_column s
    let engineMissing : Bool :=
      match s.table_engine with
      | .summingMergeTree cols =>
        cols.any (fun c => ((s.columns.find? (fun p => p.1 == c)).isNone))
      | _ => false
    if engineMissing then
      throw (.schemaValidationError "TableEngine".data
        "SummingMergeTree engine is missing columns".data)
    else if s.h3_base_resolutions.isEmpty
        || !(strictlySorted s.h3_base_resolutions)
        || s.h3_base_resolutions.any (fun r => 15 < r) then
      throw (.schemaValidationError "CompactedTableSchema".data
        "invalid h3 base resolutions".data)
    else do
      let _ ← partition_by_expressions s
      pure ()

/-- `CompactedTableSchemaBuilder` (`compacted_tables.rs` lines 286-357):
it holds the schema under construction plus a *separate* builder-local
`use_compaction` field. -/
structure CompactedTableSchemaBuilder where
  schema : CompactedTableSchema
  use_compaction : Bool

/-- `HashMap::insert` on the association list: replace the value when the
key exists, append otherwise. -/
def listInsert (l : List (Str × ColumnDefinition)) (key : Str)
    (v : ColumnDefinition) : List (Str × ColumnDefinition) :=
  if (l.find? (fun p => p.1 == key)).isSome then
    l.map (fun p => if p.1 == key then (p.1, v) else p)
  else l ++ [(key, v)]

/-- `CompactedTableSchemaBuilder::new` (lines 293-311).  Defaults of the
`Default` impls absent from the sources are modelled from the spec and are
irrelevant to the claims. -/
def CompactedTableSchemaBuilder.new (table_name : Str) :
    CompactedTableSchemaBuilder where
  schema :=
    { name := table_name
      table_engine := .replacingMergeTree
      compression_method := .lz4hc 9
      h3_base_resolutions := []
      use_compaction := true
      temporal_resolution := .second
      temporal_partitioning := .year
      columns := [("h3index".data, .h3index)]
      partition_by_columns := []
      has_base_suffix := true }
  use_compaction := true

def CompactedTableSchemaBuilder.table_engine (b : CompactedTableSchemaBuilder)
    (e : TableEngine) : CompactedTableSchemaBuilder :=
  { b with schema := { b.schema with table_engine := e } }

def CompactedTableSchemaBuilder.compression_method (b : CompactedTableSchemaBuilder)
    (c : CompressionMethod) : CompactedTableSchemaBuilder :=
  { b with schema := { b.schema with compression_method := c } }

def CompactedTableSchemaBuilder.h3_base_resolutions (b : CompactedTableSchemaBuilder)
    (h3res : List Nat) : CompactedTableSchemaBuilder :=
  { b with schema := { b.schema with h3_base_resolutions := h3res } }

/-- `use_compacted_resolutions` (lines 328-331): writes only the
builder-local field, not the schema. -/
def CompactedTableSchemaBuilder.use_compacted_resolutions
    (b : CompactedTableSchemaBuilder) (v : Bool) : CompactedTableSchemaBuilder :=
  { b with use_compaction := v }

def CompactedTableSchemaBuilder.temporal_resolution (b : CompactedTableSchemaBuilder)
    (t : TemporalResolution) : CompactedTableSchemaBuilder :=
  { b with schema := { b.schema with temporal_resolution := t } }

def CompactedTableSchemaBuilder.temporal_partitioning (b : CompactedTableSchemaBuilder)
    (t : TemporalPartitioning) : CompactedTableSchemaBuilder :=
  { b with schema := { b.schema with temporal_partitioning := t } }

def CompactedTableSchemaBuilder.add_column (b : CompactedTableSchemaBuilder)
    (column_name : Str) (d : ColumnDefinition) : CompactedTableSchemaBuilder :=
  { b with schema :=
      { b.schema with columns := listInsert b.schema.columns column_name d } }

def CompactedTableSchemaBuilder.partition_by (b : CompactedTableSchemaBuilder)
    (cols : List Str) : CompactedTableSchemaBuilder :=
  { b with schema := { b.schema with partition_by_columns := cols } }

/-- `CompactedTableSchemaBuilder::build` (lines 353-356): validates and
returns the schema unchanged. -/
def CompactedTableSchemaBuilder.build (b : CompactedTableSchemaBuilder) :
    Except SchemaError CompactedTableSchema :=
  match b.schema.validate with
  | .ok _ => .ok b.schema
  | .error e => .error e

/-- One public builder call, for quantifying over builder chains. -/
inductive BuilderOp where
  | tableEngine (e : TableEngine) : BuilderOp
  | compressionMethod (c : CompressionMethod) : BuilderOp
  | h3BaseResolutions (rs : List Nat) : BuilderOp
  | useCompactedResolutions (v : Bool) : BuilderOp
  | temporalResolution (t : TemporalResolution) : BuilderOp
  | temporalPartitioning (t : TemporalPartitioning) : BuilderOp
  | addColumn (n : Str) (d : ColumnDefinition) : BuilderOp
  | partitionBy (cols : List Str) : BuilderOp

def applyOp (b : CompactedTableSchemaBuilder) : BuilderOp → CompactedTableSchemaBuilder
  | .tableEngine e => b.table_engine e
  | .compressionMethod c => b.compression_method c
  | .h3BaseResolutions rs => b.h3_base_resolutions rs
  | .useCompactedResolutions v => b.use_compacted_resolutions v
  | .temporalResolution t => b.temporal_resolution t
  | .temporalPartitioning t => b.temporal_partitioning t
  | .addColumn n d => b.add_column n d
  | .partitionBy cols => b.partition_by cols

def applyOps (b : CompactedTableSchemaBuilder) (ops : List BuilderOp) :
    CompactedTableSchemaBuilder :=
  ops.foldl applyOp b

/-- The `okavango_delta` schema of spec scenario S5, reached through the
public builder exactly as in the repository's test. -/
def okavangoBuilder : CompactedTableSchemaBuilder :=
  applyOps (CompactedTableSchemaBuilder.new "okavango_delta".data)
    [.h3BaseResolutions [1, 2, 3, 4, 5],
     .temporalPartitioning .month,
     .addColumn "elephant_density".data (.withAggregation ⟨.f32, none⟩ .average),
     .addColumn "observed_on".data (.simple ⟨.dateTime, some 0⟩)]

def okavangoSchema : CompactedTableSchema := okavangoBuilder.schema

/-! ### C7: partition expressions -/

theorem foldl_filter_if {α β : Type} (p : α → Bool) (g : β → α → β) :
    ∀ (l : List α) (init : β),
      l.foldl (fun acc a => if p a then g acc a else acc) init
        = (l.filter p).foldl g init := by
  intro l
  induction l with
  | nil => intro init; rfl
  | cons a rest ih =>
    intro init
    rw [List.foldl_cons, List.filter_cons]
    cases hp : p a with
    | true =>
      rw [if_pos rfl, if_pos rfl]
      exact ih (g init a)
    | false =>
      rw [if_neg (by simp), if_neg (by simp)]
      exact ih init

/-- The temporal-entry fold visits exactly the temporal columns. -/
theorem temporalPartitionEntries_eq_filter (s : CompactedTableSchema) (first : Str) :
    temporalPartitionEntries s first
      = (s.columns.filter (fun p => p.2.datatype.is_temporal)).foldl
          (fun acc p =>
            if acc.contains (partition_by_expression p.1 p.2 s.temporal_partitioning)
                || first == partition_by_expression p.1 p.2 s.temporal_partitioning then
              acc
            else acc ++ [partition_by_expression p.1 p.2 s.temporal_partitioning])
          [] :=
  foldl_filter_if _ _ s.columns []

/-- The leading literal of the temporal partition expression. -/
def tpPrefix : TemporalPartitioning → Str
  | .year => "toString(toYear(".data
  | .month => "toString(toMonth(".data

theorem pbe_temporal (n : Str) (d : ColumnDefinition) (tp : TemporalPartitioning)
    (htemp : d.datatype.is_temporal = true) :
    partition_by_expression n d tp = tpPrefix tp ++ n ++ "))".data := by
  cases d with
  | h3index => exact absurd htemp (by decide)
  | simple c =>
    unfold partition_by_expression
    rw [if_pos htemp]
    cases tp <;> rfl
  | withAggregation c a =>
    unfold partition_by_expression
    rw [if_pos htemp]
    cases tp <;> rfl

theorem h3expr_beq_temporal_false (x n : Str) (tp : TemporalPartitioning) :
    (("h3GetBaseCell(".data ++ x) == (tpPrefix tp ++ n ++ "))".data)) = false := by
  cases tp <;> rfl

theorem temporal_expr_inj (n1 n2 : Str) (tp : TemporalPartitioning)
    (h : tpPrefix tp ++ n1 ++ "))".data = tpPrefix tp ++ n2 ++ "))".data) :
    n1 = n2 := by
  rw [List.append_assoc, List.append_assoc] at h
  exact List.append_cancel_right (List.append_cancel_left h)

theorem dedupFold_length_le (first : Str) (tp : TemporalPartitioning) :
    ∀ (l : List (Str × ColumnDefinition)) (acc : List Str),
      acc.length ≤ (l.foldl
        (fun acc p =>
          if acc.contains (partition_by_expression p.1 p.2 tp)
              || first == partition_by_expression p.1 p.2 tp then acc
          else acc ++ [partition_by_expression p.1 p.2 tp]) acc).length := by
  intro l
  induction l with
  | nil => intro acc; exact Nat.le_refl _
  | cons a rest ih =>
    intro acc
    rw [List.foldl_cons]
    split_ifs with hc
    · exact ih acc
    · refine Nat.le_trans ?_ (ih _)
      rw [List.length_append]
      omega

/-- The `h3index` lookup hypothesis used by the C7 theorem. -/
def H3IndexColOk (s : CompactedTableSchema) : Prop :=
  (s.columns.find? (fun p => p.1 == "h3index".data)).map Prod.snd
    = some ColumnDefinition.h3index

theorem h3index_column_ok (s : CompactedTableSchema) (h : H3IndexColOk s) :
    h3index_column s = .ok ("h3index".data, ColumnDefinition.h3index) := by
  unfold h3index_column get_column_def
  rw [h]
  rfl

theorem first_beq_temporal_false (n : Str) (tp : TemporalPartitioning) :
    ((partition_by_expression "h3index".data ColumnDefinition.h3index tp)
      == (tpPrefix tp ++ n ++ "))".data)) = false := by
  cases tp <;> rfl

theorem foldlM_head_invariant {ε : Type} (f : List Str → Str → Except ε (List Str))
    (hf : ∀ acc c acc2, ¬(acc = []) → f acc c = .ok acc2 →
      acc2.head? = acc.head? ∧ ¬(acc2 = [])) :
    ∀ (cols : List Str) (acc ps : List Str), ¬(acc = []) →
      List.foldlM f acc cols = .ok ps → ps.head? = acc.head? := by
  intro cols
  induction cols with
  | nil =>
    intro acc ps hne h
    simp only [List.foldlM_nil] at h
    injection h with h
    rw [h]
  | cons c cs ih =>
    intro acc ps hne h
    simp only [List.foldlM_cons] at h
    cases hfa : f acc c with
    | error e => rw [hfa] at h; exact Except.noConfusion h
    | ok acc2 =>
      rw [hfa] at h
      obtain ⟨hhead, hne2⟩ := hf acc c acc2 hne hfa
      rw [ih acc2 ps hne2 h]
      exact hhead

/-- CLAIM C7.  `partition_by_expressions` always starts with
`h3GetBaseCell(h3index)`; with no explicit partitioning columns it appends
the temporal expression of the unique temporal column, fails with
`SchemaValidationError` when two temporal columns (with distinct names)
exist, and on the `okavango_delta` schema of scenario S5 yields exactly
`["h3GetBaseCell(h3index)", "toString(toMonth(observed_on))"]`. -/
theorem partition_by_expressions_characterization :
    (∀ s ps, H3IndexColOk s → partition_by_expressions s = .ok ps →
      ps.head? = some "h3GetBaseCell(h3index)".data) ∧
    (∀ s n d, H3IndexColOk s → s.partition_by_columns = [] →
      s.columns.filter (fun p => p.2.datatype.is_temporal) = [(n, d)] →
      partition_by_expressions s
        = .ok ["h3GetBaseCell(h3index)".data,
            partition_by_expression n d s.temporal_partitioning]) ∧
    (∀ s n1 d1 n2 d2 rest, H3IndexColOk s → s.partition_by_columns = [] →
      ¬(n1 = n2) →
      s.columns.filter (fun p => p.2.datatype.is_temporal)
        = (n1, d1) :: (n2, d2) :: rest →
      partition_by_expressions s = .error (.schemaValidationError
        "CompactedTableSchema".data
        "found multiple temporal columns - explict specification of partitioning columns required".data)) ∧
    partition_by_expressions okavangoSchema
      = .ok ["h3GetBaseCell(h3index)".data, "toString(toMonth(observed_on))".data] := by
  refine ⟨?_, ?_, ?_, by decide⟩
  · intro s ps hcol h
    simp only [partition_by_expressions, h3index_column_ok s hcol] at h
    split_ifs at h with h1 h2
    · injection h with h
      rw [← h]
      rfl
    · refine Eq.trans (foldlM_head_invariant _ ?_ s.partition_by_columns _ ps
        (by simp) h) rfl
      intro acc c acc2 hne hstep
      simp only [bind, Except.bind] at hstep
      cases hgd : get_column_def s c with
      | error e => rw [hgd] at hstep; exact Except.noConfusion hstep
      | ok d =>
        rw [hgd] at hstep
        simp only [pure, Except.pure] at hstep
        injection hstep with hstep
        rw [← hstep]
        split_ifs with hc
        · exact ⟨rfl, hne⟩
        · cases acc with
          | nil => exact absurd rfl hne
          | cons x xs => exact ⟨rfl, by simp⟩
  · intro s n d hcol hpb hfilter
    have hd_temp : d.datatype.is_temporal = true := by
      have hmem : (n, d) ∈ s.columns.filter (fun p => p.2.datatype.is_temporal) := by
        rw [hfilter]
        exact List.mem_singleton.mpr rfl
      exact (List.mem_filter.mp hmem).2
    have hent : temporalPartitionEntries s
        (partition_by_expression "h3index".data .h3index s.temporal_partitioning)
        = [partition_by_expression n d s.temporal_partitioning] := by
      rw [temporalPartitionEntries_eq_filter, hfilter]
      simp only [List.foldl_cons, List.foldl_nil]
      rw [if_neg ?hcond]
      case hcond =>
        rw [pbe_temporal n d s.temporal_partitioning hd_temp,
          first_beq_temporal_false]
        simp
      rfl
    simp only [partition_by_expressions, h3index_column_ok s hcol]
    rw [if_pos (by rw [hpb]; rfl), if_neg (by rw [hent]; simp), hent]
    rfl
  · intro s n1 d1 n2 d2 rest hcol hpb hne hfilter
    have hd1_temp : d1.datatype.is_temporal = true := by
      have hmem : (n1, d1) ∈ s.columns.filter (fun p => p.2.datatype.is_temporal) := by
        rw [hfilter]
        exact List.mem_cons_self _ _
      exact (List.mem_filter.mp hmem).2
    have hd2_temp : d2.datatype.is_temporal = true := by
      have hmem : (n2, d2) ∈ s.columns.filter (fun p => p.2.datatype.is_temporal) := by
        rw [hfilter]
        exact List.mem_cons_of_mem _ (List.mem_cons_self _ _)
      exact (List.mem_filter.mp hmem).2
    have hbeq21 : ((partition_by_expression n2 d2 s.temporal_partitioning)
        == (partition_by_expression n1 d1 s.temporal_partitioning)) = false := by
      rw [pbe_temporal n2 d2 s.temporal_partitioning hd2_temp,
        pbe_temporal n1 d1 s.temporal_partitioning hd1_temp, beq_eq_false_iff_ne]
      intro hcontra
      exact hne ((temporal_expr_inj n2 n1 s.temporal_partitioning hcontra).symm)
    have hfb1 : ((partition_by_expression "h3index".data ColumnDefinition.h3index
        s.temporal_partitioning) == (partition_by_expression n1 d1
          s.temporal_partitioning)) = false := by
      rw [pbe_temporal n1 d1 s.temporal_partitioning hd1_temp]
      exact first_beq_temporal_false n1 s.temporal_partitioning
    have hfb2 : ((partition_by_expression "h3index".data ColumnDefinition.h3index
        s.temporal_partitioning) == (partition_by_expression n2 d2
          s.temporal_partitioning)) = false := by
      rw [pbe_temporal n2 d2 s.temporal_partitioning hd2_temp]
      exact first_beq_temporal_false n2 s.temporal_partitioning
    have hlen : 1 < (temporalPartitionEntries s
        (partition_by_expression "h3index".data .h3index s.temporal_partitioning)).length := by
      rw [temporalPartitionEntries_eq_filter, hfilter]
      have hne21 := beq_eq_false_iff_ne.mp hbeq21
      have hnefb1 : partition_by_expression ['h', '3', 'i', 'n', 'd', 'e', 'x']
          ColumnDefinition.h3index s.temporal_partitioning
          ≠ partition_by_expression n1 d1 s.temporal_partitioning :=
        beq_eq_false_iff_ne.mp hfb1
      have hnefb2 : partition_by_expression ['h', '3', 'i', 'n', 'd', 'e', 'x']
          ColumnDefinition.h3index s.temporal_partitioning
          ≠ partition_by_expression n2 d2 s.temporal_partitioning :=
        beq_eq_false_iff_ne.mp hfb2
      rw [List.foldl_cons]
      rw [if_neg (by simp only [List.contains_nil, Bool.false_or, beq_iff_eq]; exact hnefb1)]
      rw [List.foldl_cons]
      rw [if_neg (by
        simp only [List.nil_append, List.contains_cons, List.contains_nil,
          Bool.or_false, Bool.or_eq_true, beq_iff_eq, not_or]
        exact ⟨hne21, hnefb2⟩)]
      have hge := dedupFold_length_le
        (partition_by_expression "h3index".data .h3index s.temporal_partitioning)
        s.temporal_partitioning rest
        ([] ++ [partition_by_expression n1 d1 s.temporal_partitioning]
          ++ [partition_by_expression n2 d2 s.temporal_partitioning])
      simp only [List.length_append, List.length_nil, List.length_cons] at hge ⊢
      omega
    simp only [partition_by_expressions, h3index_column_ok s hcol]
    rw [if_pos (by rw [hpb]; rfl), if_pos hlen]

/-- Witness applying the partition-expression characterization to the
`okavango_delta` schema. -/
theorem partition_by_expressions_characterization_witness :
    partition_by_expressions okavangoSchema
      = .ok ["h3GetBaseCell(h3index)".data,
          partition_by_expression "observed_on".data
            (.simple ⟨.dateTime, some 0⟩) okavangoSchema.temporal_partitioning] :=
  partition_by_expressions_characterization.2.1 okavangoSchema "observed_on".data
    (.simple ⟨.dateTime, some 0⟩) (by unfold H3IndexColOk; decide) (by decide) (by decide)

/-! ### C10: the builder's dead `use_compacted_resolutions` knob -/

theorem applyOp_schema_use_compaction (b : CompactedTableSchemaBuilder)
    (op : BuilderOp) :
    (applyOp b op).schema.use_compaction = b.schema.use_compaction := by
  cases op <;> rfl

/-- CLAIM C10.  `use_compacted_resolutions` writes only the builder-local
field and leaves the schema untouched; since `new` sets the schema's
`use_compaction` to `true` and no builder method changes it, every schema
obtained from `build()` has `use_compaction = true` regardless of the
value passed. -/
theorem use_compacted_resolutions_frame :
    (∀ b v, (CompactedTableSchemaBuilder.use_compacted_resolutions b v).schema
      = b.schema) ∧
    (∀ table_name ops,
      (applyOps (CompactedTableSchemaBuilder.new table_name) ops).schema.use_compaction
        = true) ∧
    (∀ b s, CompactedTableSchemaBuilder.build b = .ok s → s = b.schema) ∧
    (∀ table_name ops s,
      CompactedTableSchemaBuilder.build
          (applyOps (CompactedTableSchemaBuilder.new table_name) ops) = .ok s →
      s.use_compaction = true) := by
  have hinv : ∀ (ops : List BuilderOp) (b : CompactedTableSchemaBuilder),
      (applyOps b ops).schema.use_compaction = b.schema.use_compaction := by
    intro ops
    induction ops with
    | nil => intro b; rfl
    | cons op rest ih =>
      intro b
      show (applyOps (applyOp b op) rest).schema.use_compaction = _
      rw [ih (applyOp b op), applyOp_schema_use_compaction]
  have hbuild : ∀ b s, CompactedTableSchemaBuilder.build b = .ok s → s = b.schema := by
    intro b s h
    unfold CompactedTableSchemaBuilder.build at h
    cases hv : b.schema.validate with
    | ok u => rw [hv] at h; injection h with h; exact h.symm
    | error e => rw [hv] at h; exact Except.noConfusion h
  refine ⟨fun b v => rfl, fun table_name ops => ?_, hbuild, fun table_name ops s h => ?_⟩
  · rw [hinv ops (CompactedTableSchemaBuilder.new table_name)]
    rfl
  · rw [hbuild _ s h, hinv ops (CompactedTableSchemaBuilder.new table_name)]
    rfl

/-- Witness applying the frame theorem to the `okavango_delta` builder,
with `use_compacted_resolutions false` applied along the way. -/
theorem use_compacted_resolutions_frame_witness :
    (CompactedTableSchemaBuilder.use_compacted_resolutions okavangoBuilder false).schema
        = okavangoBuilder.schema ∧
    okavangoSchema.use_compaction = true :=
  ⟨use_compacted_resolutions_frame.1 okavangoBuilder false,
   use_compacted_resolutions_frame.2.2.2 "okavango_delta".data
     [.h3BaseResolutions [1, 2, 3, 4, 5],
      .temporalPartitioning .month,
      .addColumn "elephant_density".data (.withAggregation ⟨.f32, none⟩ .average),
      .addColumn "observed_on".data (.simple ⟨.dateTime, some 0⟩)]
     okavangoSchema (by decide)⟩

/-! ### C8: environment tuning knobs (`bamboo_h3/src/env.rs`) -/

/-- Rust `str::parse::<u8>()`: an optional leading `+`, then one or more
decimal digits, value at most 255. -/
def parseU8 (s : Str) : Option Nat :=
  match (match s with
         | '+' :: rest => rest
         | _ => s) with
  | [] => none
  | t =>
    if t.all isAsciiDigit then
      if t.foldl (fun a c => 10 * a + digitVal c) 0 ≤ 255 then
        some (t.foldl (fun a c => 10 * a + digitVal c) 0)
      else none
    else none

/-- `get_numeric_env_with_default_and_min` (`env.rs` lines 39-63).  The
environment variable is passed as an optional string.  Note the source
computes `min(value, min_value)`. -/
def get_numeric_env_with_default_and_min (envValue : Option Str)
    (default minValue : Nat) : Nat :=
  match envValue with
  | some v =>
    match parseU8 v with
    | some value => min value minValue
    | none => default
  | none => default

/-- `cellwalk_num_clickhouse_threads` (`env.rs` lines 23-29). -/
def cellwalk_num_clickhouse_threads (envValue : Option Str) : Nat :=
  get_numeric_env_with_default_and_min envValue 2 1

/-- `cellwalk_num_concurrent_queries` (`env.rs` lines 31-37). -/
def cellwalk_num_concurrent_queries (envValue : Option Str) : Nat :=
  get_numeric_env_with_default_and_min envValue 3 1

/-- CLAIM C8 FAILS ON THE CODE (code bug).  The function name and its
`min_value` parameter promise a floor, and the spec says "floor 1", but the
source computes `cmp::min(value, min_value)` — a *cap* at 1: a parsed `5`
yields 1 (claim: 5), a parsed `0` yields 0 (claim: 1).  Defaults on unset
or malformed values behave as claimed. -/
theorem cellwalk_env_knobs_eval :
    cellwalk_num_clickhouse_threads (some "5".data) = 1 ∧
    cellwalk_num_clickhouse_threads (some "0".data) = 0 ∧
    cellwalk_num_concurrent_queries (some "7".data) = 1 ∧
    cellwalk_num_clickhouse_threads none = 2 ∧
    cellwalk_num_concurrent_queries none = 3 ∧
    cellwalk_num_clickhouse_threads (some "abc".data) = 2 ∧
    cellwalk_num_concurrent_queries (some "999".data) = 3 := by decide

/-! ### C9: single-shot result sets (`bamboo_h3/src/clickhouse.rs`) -/

/-- `AwaitableResultSet` (lines 126-154): the spawned task is modelled by
the value it will produce, held in the optional `handle`; `t_query_start`
is the submission timestamp. -/
structure AwaitableResultSet (α : Type) where
  handle : Option α
  t_query_start : Nat

/-- `AwaitableResultSet::wait_until_finished` (lines 144-154): take the
handle; if already taken, fail with the already-consumed error. -/
def AwaitableResultSet.wait_until_finished {α : Type}
    (rs : AwaitableResultSet α) (now : Nat) :
    Except Str (α × Nat) × AwaitableResultSet α :=
  match rs.handle with
  | some h => (.ok (h, now - rs.t_query_start), { rs with handle := none })
  | none => (.error "resultset can only be awaited once".data, rs)

/-- `ResultSet` (lines 156-165): `column_data` is
`Either<Option<ColumnSet>, Option<AwaitableResultSet>>`. -/
structure MResultSet (α : Type) where
  h3indexes_queried : Option (List Nat)
  window_h3index : Option Nat
  column_data : Sum (Option α) (Option (AwaitableResultSet α))
  query_duration : Option Nat

/-- `ResultSet::await_column_data` (lines 168-177): take a pending
awaitable, wait on it, store the column set and the duration. -/
def MResultSet.await_column_data {α : Type} (rs : MResultSet α) (now : Nat) :
    Except Str Unit × MResultSet α :=
  match rs.column_data with
  | .inr (some aw) =>
    match aw.wait_until_finished now with
    | (.ok (cs, d), _) =>
      (.ok (), { rs with column_data := .inl (some cs), query_duration := some d })
    | (.error e, _) => (.error e, { rs with column_data := .inr none })
  | .inr none => (.ok (), rs)
  | .inl _ => (.ok (), rs)

/-- `ResultSet::get_columnset` (lines 236-242): await, then `take` the
left value; a right value yields `None`. -/
def MResultSet.get_columnset {α : Type} (rs : MResultSet α) (now : Nat) :
    Except Str (Option α) × MResultSet α :=
  match rs.await_column_data now with
  | (.error e, rs2) => (.error e, rs2)
  | (.ok _, rs2) =>
    match rs2.column_data with
    | .inl cd => (.ok cd, { rs2 with column_data := .inl none })
    | .inr _ => (.ok none, rs2)

/-- CLAIM C9.  The result-set handle is single-shot: the first
`wait_until_finished` takes the task handle and returns the column data
with the elapsed time, every later wait fails with the already-consumed
error; the first `get_columnset` after data is available returns
`Some(columnset)`, and every later call returns `None` (the post-state is
a fixed point returning `None`). -/
theorem result_set_single_shot :
    (∀ (α : Type) (rs : AwaitableResultSet α) (a : α) (now later : Nat),
      rs.handle = some a →
      rs.wait_until_finished now
        = (.ok (a, now - rs.t_query_start), { rs with handle := none }) ∧
      ((rs.wait_until_finished now).2.wait_until_finished later).1
        = .error "resultset can only be awaited once".data) ∧
    (∀ (α : Type) (rs : AwaitableResultSet α) (now : Nat),
      rs.handle = none →
      rs.wait_until_finished now
        = (.error "resultset can only be awaited once".data, rs)) ∧
    (∀ (α : Type) (rs : MResultSet α) (cs : α) (now : Nat),
      rs.column_data = .inl (some cs) →
      rs.get_columnset now
        = (.ok (some cs), { rs with column_data := .inl none })) ∧
    (∀ (α : Type) (rs : MResultSet α) (aw : AwaitableResultSet α) (a : α) (now : Nat),
      rs.column_data = .inr (some aw) → aw.handle = some a →
      rs.get_columnset now
        = (.ok (some a),
            { rs with
              column_data := Sum.inl none
              query_duration := some (now - aw.t_query_start) })) ∧
    (∀ (α : Type) (rs : MResultSet α) (now : Nat),
      rs.column_data = .inl none →
      rs.get_columnset now = (.ok none, rs)) := by
  refine ⟨?_, ?_, ?_, ?_, ?_⟩
  · intro α rs a now later hh
    unfold AwaitableResultSet.wait_until_finished
    rw [hh]
    exact ⟨rfl, rfl⟩
  · intro α rs now hh
    unfold AwaitableResultSet.wait_until_finished
    rw [hh]
  · intro α rs cs now hcd
    simp only [MResultSet.get_columnset, MResultSet.await_column_data, hcd]
  · intro α rs aw a now hcd hh
    simp only [MResultSet.get_columnset, MResultSet.await_column_data, hcd,
      AwaitableResultSet.wait_until_finished, hh]
  · intro α rs now hcd
    obtain ⟨q1, q2, cd, q4⟩ := rs
    simp only at hcd
    subst hcd
    simp only [MResultSet.get_columnset, MResultSet.await_column_data]

/-- Witness applying the single-shot theorem at concrete states. -/
theorem result_set_single_shot_witness :
    ((⟨some 42, 10⟩ : AwaitableResultSet Nat).wait_until_finished 17
      = (.ok (42, 7), ⟨none, 10⟩)) ∧
    ((⟨none, some 3, .inl (some 42), none⟩ : MResultSet Nat).get_columnset 5
      = (.ok (some 42), ⟨none, some 3, .inl none, none⟩)) :=
  ⟨((result_set_single_shot.1 Nat ⟨some 42, 10⟩ 42 17 0 rfl).1),
   (result_set_single_shot.2.2.1 Nat ⟨none, some 3, .inl (some 42), none⟩ 42 5 rfl)⟩

end H3CS
